import Mathlib

/-!
Verification of the `claude-persistent-context` repository.

This file shallowly embeds the two core source files —
`scripts/update_context.py` (the diff-audited store updater) and
`scripts/scanner.py` (the multi-platform inventory scanner) — as
executable Lean definitions and proves or refutes the frozen claims
about them.

Modelling conventions:
  * Python strings are modelled as `List Char` (wrapped in `String` at
    interfaces).  Python's `str.strip()` and whitespace-splitting are
    modelled over the ASCII whitespace characters that can occur in the
    data handled by these scripts; non-ASCII Unicode whitespace is not
    modelled.
  * JSON documents (the `json` library values that the scripts
    manipulate) are modelled by the mutual inductive `Json`/`JArr`/`JObj`
    below.  JSON numerals are modelled as integers: every document
    appearing in the spec and in the claims uses integer numerals, and
    none of the claims depends on float formatting.  Object members keep
    their insertion order, as Python dicts do.
  * `json.loads` is modelled by the recursive-descent parser `json_loads`
    (fuel-bounded; the fuel exceeds the recursion depth for every input
    that Python itself can parse without hitting its own recursion
    limit), and `json.dumps(·, indent=2)` by `json_dumps_pretty`.
    `json.dumps(·, indent=2, sort_keys=True)` is modelled as the plain
    pretty-printer applied to the recursively key-sorted value: Python
    sorts each object's items with a stable sort during serialization,
    and since the keys of a parsed object are pairwise distinct the two
    formulations produce identical text.
  * Fallible Python code is modelled with `Except PyErr`; an uncaught
    exception is an `Except.error` propagating to the caller.
-/

set_option maxRecDepth 20000

/-- The Python exceptions that the two scripts can raise or catch. -/
inductive PyErr where
  | valueError : PyErr
  | indexError : PyErr
  | keyError : PyErr
  | typeError : PyErr
  | attributeError : PyErr
  | jsonDecodeError : PyErr
  | timeoutExpired : PyErr
  | subprocessError : PyErr
  | fileNotFoundError : PyErr
  /-- An `OSError` other than `FileNotFoundError`, e.g. the
  `PermissionError` that `subprocess.run` raises when the command file
  exists but cannot be executed. -/
  | osError : PyErr
deriving DecidableEq, Repr

/-- ASCII whitespace as recognised by `str.strip()` / `str.split()`. -/
def pyIsSpace (c : Char) : Bool :=
  c = ' ' || c = '\t' || c = '\n' || c = '\r' || c = '\x0b' || c = '\x0c'

/-- Characters skipped between JSON tokens (`json.decoder.WHITESPACE`). -/
def jsonWs (c : Char) : Bool :=
  c = ' ' || c = '\t' || c = '\n' || c = '\r'

def skipWs : List Char → List Char
  | [] => []
  | c :: cs => if jsonWs c then skipWs cs else c :: cs

/-- Python `str.strip()` (ASCII whitespace; see header). -/
def pyStrip (s : List Char) : List Char :=
  ((s.dropWhile pyIsSpace).reverse.dropWhile pyIsSpace).reverse

def pyStripS (s : String) : String := ⟨pyStrip s.data⟩

/-- Python `sub in s` substring containment (`"" in s` is `True`). -/
def listStartsWith [DecidableEq α] : List α → List α → Bool
  | [], _ => true
  | _ :: _, [] => false
  | p :: ps, x :: xs => p = x && listStartsWith ps xs

def containsSub [DecidableEq α] (sub : List α) : List α → Bool
  | [] => listStartsWith sub []
  | x :: xs => listStartsWith sub (x :: xs) || containsSub sub xs

def pyInS (sub s : String) : Bool := containsSub sub.data s.data

def pyStartsWith (p s : String) : Bool := listStartsWith p.data s.data

/-- Python `str.split(sep)` for a single-character separator
(`"a,,b".split(",") = ["a", "", "b"]`; splitting the empty string gives
`[""]`). -/
def splitOnChar (sep : Char) : List Char → List (List Char)
  | [] => [[]]
  | c :: cs =>
    let rest := splitOnChar sep cs
    if c = sep then [] :: rest
    else
      match rest with
      | [] => [[c]]
      | r :: rs => (c :: r) :: rs

def pySplitS (sep : Char) (s : String) : List String :=
  (splitOnChar sep s.data).map (fun l => ⟨l⟩)

/-- Python `str.split()` with no argument: split on whitespace runs,
dropping empty fields. -/
def pySplitWsAux : List Char → List Char → List (List Char)
  | [], acc => if acc = [] then [] else [acc.reverse]
  | c :: cs, acc =>
    if pyIsSpace c then
      if acc = [] then pySplitWsAux cs []
      else acc.reverse :: pySplitWsAux cs []
    else pySplitWsAux cs (c :: acc)

def pySplitWs (s : String) : List String :=
  (pySplitWsAux s.data []).map (fun l => ⟨l⟩)

/-- Python `str.splitlines(keepends=True)`, restricted to `'\n'`
terminators (the only terminator occurring in the canonicalized JSON
text this script splits). -/
def splitKeepEnds : List Char → List Char → List (List Char)
  | [], acc => if acc = [] then [] else [acc.reverse]
  | c :: cs, acc =>
    if c = '\n' then (acc.reverse ++ ['\n']) :: splitKeepEnds cs []
    else splitKeepEnds cs (c :: acc)

def splitLinesKeep (s : List Char) : List (List Char) := splitKeepEnds s []

/-- Python `str.lower()` (ASCII). -/
def pyLowerChar (c : Char) : Char :=
  if 'A' ≤ c && c ≤ 'Z' then Char.ofNat (c.toNat + 32) else c

def pyLower (s : String) : String := ⟨s.data.map pyLowerChar⟩

/-- Python `str.replace(old, new)` with non-empty `old`. -/
def pyReplaceAux (old new : List Char) : Nat → List Char → List Char
  | 0, s => s
  | _ + 1, [] => []
  | fuel + 1, c :: cs =>
    if listStartsWith old (c :: cs) then
      new ++ pyReplaceAux old new fuel ((c :: cs).drop old.length)
    else c :: pyReplaceAux old new fuel cs

def pyReplace (s old new : String) : String :=
  ⟨pyReplaceAux old.data new.data (s.data.length + 1) s.data⟩

/-- Python `str.rstrip(chars)` for a single character. -/
def pyRstripChar (ch : Char) (s : String) : String :=
  ⟨(s.data.reverse.dropWhile (fun c => c = ch)).reverse⟩

def isDigitChar (c : Char) : Bool := '0' ≤ c && c ≤ '9'

/-- Python `str.isdigit()` (ASCII digits; nonempty). -/
def pyIsDigit (s : String) : Bool :=
  !s.data.isEmpty && s.data.all isDigitChar

def digitVal (c : Char) : Nat := c.toNat - '0'.toNat

def digitsToNat (acc : Nat) : List Char → Nat
  | [] => acc
  | c :: cs => digitsToNat (acc * 10 + digitVal c) cs

/-- Python `int(str)`: optional surrounding whitespace, optional sign,
then one or more ASCII digits; anything else raises `ValueError`.
(Underscore digit grouping is not modelled.) -/
def pyIntOfString (s : String) : Except PyErr Int :=
  let t := pyStrip s.data
  let core : List Char → Except PyErr Nat := fun ds =>
    if ds ≠ [] && ds.all isDigitChar then .ok (digitsToNat 0 ds)
    else .error .valueError
  match t with
  | '-' :: ds => (core ds).map (fun n => -(n : Int))
  | '+' :: ds => (core ds).map (fun n => (n : Int))
  | ds => (core ds).map (fun n => (n : Int))

/-! ## The JSON value model -/

mutual
/-- A parsed JSON document (`json.loads` result).  Numerals are modelled
as integers and object members keep insertion order; see the header. -/
inductive Json where
  | null : Json
  | bool (b : Bool) : Json
  | num (n : Int) : Json
  | str (s : String) : Json
  | arr (elts : JArr) : Json
  | obj (mems : JObj) : Json
deriving DecidableEq, Repr
inductive JArr where
  | nil : JArr
  | cons (hd : Json) (tl : JArr) : JArr
deriving DecidableEq, Repr
inductive JObj where
  | nil : JObj
  | cons (k : String) (v : Json) (tl : JObj) : JObj
deriving DecidableEq, Repr
end

mutual
def jSize : Json → Nat
  | .null | .bool _ | .num _ | .str _ => 1
  | .arr xs => 2 + jaSize xs
  | .obj ms => 2 + joSize ms
def jaSize : JArr → Nat
  | .nil => 0
  | .cons x xs => 1 + jSize x + jaSize xs
def joSize : JObj → Nat
  | .nil => 0
  | .cons _ v tl => 1 + jSize v + joSize tl
end

def keyMem (k : String) : JObj → Bool
  | .nil => false
  | .cons k' _ tl => k = k' || keyMem k tl

def keysNodup : JObj → Bool
  | .nil => true
  | .cons k _ tl => !keyMem k tl && keysNodup tl

mutual
/-- Well-formedness: every object has pairwise-distinct keys.  This holds
for every value produced by `json_loads` (Python dicts cannot hold
duplicate keys). -/
def wfJ : Json → Bool
  | .null | .bool _ | .num _ | .str _ => true
  | .arr xs => wfA xs
  | .obj ms => keysNodup ms && wfO ms
def wfA : JArr → Bool
  | .nil => true
  | .cons x xs => wfJ x && wfA xs
def wfO : JObj → Bool
  | .nil => true
  | .cons _ v tl => wfJ v && wfO tl
end

/-- Python string `<` / `<=` comparison: lexicographic on code points. -/
def charListLe : List Char → List Char → Bool
  | [], _ => true
  | _ :: _, [] => false
  | a :: as, b :: bs =>
    if a.toNat < b.toNat then true
    else if b.toNat < a.toNat then false
    else charListLe as bs

def keyLe (a b : String) : Bool := charListLe a.data b.data

/-- Stable insertion into a key-sorted member list (a member with a key
equal to an existing one goes after it, as in Python's stable sort;
irrelevant in practice because parsed objects have distinct keys). -/
def objInsert (k : String) (v : Json) : JObj → JObj
  | .nil => .cons k v .nil
  | .cons k' v' tl =>
    if keyLe k k' && !(keyLe k' k) then .cons k v (.cons k' v' tl)
    else .cons k' v' (objInsert k v tl)

def objSortMems : JObj → JObj
  | .nil => .nil
  | .cons k v tl => objInsert k v (objSortMems tl)

mutual
/-- Recursively sort every object's members by key.  `json.dumps` with
`sort_keys=True` equals the plain pretty-printer applied to this. -/
def sortJson : Json → Json
  | .null => .null
  | .bool b => .bool b
  | .num n => .num n
  | .str s => .str s
  | .arr xs => .arr (sortJArr xs)
  | .obj ms => .obj (objSortMems (sortJObjVals ms))
def sortJArr : JArr → JArr
  | .nil => .nil
  | .cons x xs => .cons (sortJson x) (sortJArr xs)
def sortJObjVals : JObj → JObj
  | .nil => .nil
  | .cons k v tl => .cons k (sortJson v) (sortJObjVals tl)
end

/-! ## Serialization: `json.dumps(·, indent=2)` -/

def digChar (d : Nat) : Char := Char.ofNat (48 + d)

def hexChar (d : Nat) : Char :=
  if d < 10 then Char.ofNat (48 + d) else Char.ofNat (87 + d)

/-- Four lowercase hex digits (`'\\u{0:04x}'.format n` for `n < 0x10000`). -/
def toHex4 (n : Nat) : List Char :=
  [hexChar (n / 4096 % 16), hexChar (n / 256 % 16),
   hexChar (n / 16 % 16), hexChar (n % 16)]

def natDigitsAux : Nat → Nat → List Char
  | 0, _ => []
  | f + 1, n =>
    if n < 10 then [digChar n]
    else natDigitsAux f (n / 10) ++ [digChar (n % 10)]

/-- Decimal digits of a natural number, no leading zeros. -/
def natDigits (n : Nat) : List Char := natDigitsAux (n + 1) n

/-- Python `repr` of an int. -/
def intRepr (n : Int) : List Char :=
  if n < 0 then '-' :: natDigits n.natAbs else natDigits n.natAbs

/-- One character of `json.encoder.py_encode_basestring_ascii`:
`"` and `\\` and the five short escapes, printable ASCII verbatim,
everything else `\\uXXXX` (with a surrogate pair above `0xFFFF`). -/
def encChar (c : Char) : List Char :=
  if c = '"' then ['\\', '"']
  else if c = '\\' then ['\\', '\\']
  else if c = '\x08' then ['\\', 'b']
  else if c = '\x0c' then ['\\', 'f']
  else if c = '\n' then ['\\', 'n']
  else if c = '\r' then ['\\', 'r']
  else if c = '\t' then ['\\', 't']
  else if 0x20 ≤ c.toNat && c.toNat ≤ 0x7e then [c]
  else if c.toNat < 0x10000 then '\\' :: 'u' :: toHex4 c.toNat
  else
    let n := c.toNat - 0x10000
    ('\\' :: 'u' :: toHex4 (0xd800 + n / 0x400)) ++
    ('\\' :: 'u' :: toHex4 (0xdc00 + n % 0x400))

def encCharsAux : List Char → List Char
  | [] => []
  | c :: cs => encChar c ++ encCharsAux cs

/-- A JSON string literal: quote, escaped body, quote. -/
def encStr (s : String) : List Char :=
  '"' :: encCharsAux s.data ++ ['"']

def pad (lvl : Nat) : List Char := List.replicate (2 * lvl) ' '

def jaIsNil : JArr → Bool
  | .nil => true
  | .cons _ _ => false

def joIsNil : JObj → Bool
  | .nil => true
  | .cons _ _ _ => false

mutual
/-- `json.dumps(v, indent=2)` at indentation level `lvl` (no key
sorting; member order is the value's own order). -/
def json_dumps_val : Json → Nat → List Char
  | .null, _ => "null".data
  | .bool true, _ => "true".data
  | .bool false, _ => "false".data
  | .num n, _ => intRepr n
  | .str s, _ => encStr s
  | .arr l, lvl =>
    if jaIsNil l then "[]".data
    else '[' :: '\n' :: (dumpsElems l (lvl + 1) ++ '\n' :: (pad lvl ++ [']']))
  | .obj l, lvl =>
    if joIsNil l then "\x7b\x7d".data
    else '\x7b' :: '\n' :: (dumpsMems l (lvl + 1) ++ '\n' :: (pad lvl ++ ['\x7d']))
/-- The comma-and-newline-separated element lines of a non-empty array. -/
def dumpsElems : JArr → Nat → List Char
  | .nil, _ => []
  | .cons x xs, lvl =>
    pad lvl ++ json_dumps_val x lvl ++
      if jaIsNil xs then [] else ',' :: '\n' :: dumpsElems xs lvl
/-- The comma-and-newline-separated member lines of a non-empty object. -/
def dumpsMems : JObj → Nat → List Char
  | .nil, _ => []
  | .cons k v tl, lvl =>
    pad lvl ++ encStr k ++ ':' :: ' ' :: json_dumps_val v lvl ++
      if joIsNil tl then [] else ',' :: '\n' :: dumpsMems tl lvl
end

/-- `json.dumps(v, indent=2)` as a string. -/
def json_dumps_pretty (v : Json) : String := ⟨json_dumps_val v 0⟩

/-- `json.dumps(v, indent=2, sort_keys=True)` as a string. -/
def json_dumps_sorted (v : Json) : String := ⟨json_dumps_val (sortJson v) 0⟩

/-! ## Parsing: `json.loads` -/

def hexVal (c : Char) : Option Nat :=
  if '0' ≤ c && c ≤ '9' then some (c.toNat - 48)
  else if 'a' ≤ c && c ≤ 'f' then some (c.toNat - 87)
  else if 'A' ≤ c && c ≤ 'F' then some (c.toNat - 55)
  else none

def hex4 (a b c d : Char) : Option Nat :=
  match hexVal a, hexVal b, hexVal c, hexVal d with
  | some x, some y, some z, some w => some (x * 4096 + y * 256 + z * 16 + w)
  | _, _, _, _ => none

/-- The backslash-escape table of `json.decoder.py_scanstring`. -/
def escMap (e : Char) : Option Char :=
  if e = '"' then some '"'
  else if e = '\\' then some '\\'
  else if e = '/' then some '/'
  else if e = 'b' then some '\x08'
  else if e = 'f' then some '\x0c'
  else if e = 'n' then some '\n'
  else if e = 'r' then some '\r'
  else if e = 't' then some '\t'
  else none

mutual
/-- `json.decoder.py_scanstring` after the opening quote, in strict mode:
returns the decoded body and the text after the closing quote.  A lone
surrogate `\\uXXXX` escape (which Python would keep as a surrogate code
unit, a value no Lean `Char` can hold) is rejected instead; no claim
involves such strings.  The escape, `\\uXXXX`, and surrogate-pair steps
are split into the helper functions below. -/
def parseStringBody : List Char → Option (List Char × List Char)
  | [] => none
  | c :: cs =>
    if c = '"' then some ([], cs)
    else if c = '\\' then psbEscape cs
    else if c.toNat < 0x20 then none
    else (parseStringBody cs).map (fun p => (c :: p.1, p.2))
def psbEscape : List Char → Option (List Char × List Char)
  | [] => none
  | e :: cs1 =>
    if e = 'u' then psbHex cs1
    else (escMap e).bind (fun d => (parseStringBody cs1).map (fun p => (d :: p.1, p.2)))
def psbHex : List Char → Option (List Char × List Char)
  | h1 :: h2 :: h3 :: h4 :: cs2 =>
    (hex4 h1 h2 h3 h4).bind (fun u1 =>
      if 0xd800 ≤ u1 && u1 ≤ 0xdbff then psbPair cs2 u1
      else if 0xdc00 ≤ u1 && u1 ≤ 0xdfff then none
      else (parseStringBody cs2).map (fun p => (Char.ofNat u1 :: p.1, p.2)))
  | _ => none
def psbPair : List Char → Nat → Option (List Char × List Char)
  | b2 :: u2c :: g1 :: g2 :: g3 :: g4 :: cs3, u1 =>
    if b2 = '\\' && u2c = 'u' then
      (hex4 g1 g2 g3 g4).bind (fun u2 =>
        if 0xdc00 ≤ u2 && u2 ≤ 0xdfff then
          (parseStringBody cs3).map (fun p =>
            (Char.ofNat (0x10000 + (u1 - 0xd800) * 0x400 + (u2 - 0xdc00)) :: p.1, p.2))
        else none)
    else none
  | _, _ => none
end

/-- Longest ASCII-digit run. -/
def takeDigits : List Char → (List Char × List Char)
  | [] => ([], [])
  | c :: cs =>
    if isDigitChar c then
      let p := takeDigits cs
      (c :: p.1, p.2)
    else ([], c :: cs)

/-- The integer part of `json.scanner.NUMBER_RE`: `-?(0|[1-9][0-9]*)`. -/
def parseIntPartCore : List Char → Option (Nat × List Char)
  | [] => none
  | c :: ds =>
    if c = '0' then some (0, ds)
    else if isDigitChar c then
      let p := takeDigits ds
      some (digitsToNat (digitVal c) p.1, p.2)
    else none

def parseIntPart : List Char → Option (Int × List Char)
  | [] => none
  | c :: ds =>
    if c = '-' then (parseIntPartCore ds).map (fun p => (-(p.1 : Int), p.2))
    else (parseIntPartCore (c :: ds)).map (fun p => ((p.1 : Int), p.2))

/-- Is a fraction (`\.[0-9]+`) or exponent (`[eE][-+]?[0-9]+`) part next?
If so Python parses a float; float numerals are outside this model (no
claim involves them) and are rejected. -/
def floatPartNext : List Char → Bool
  | '.' :: c :: _ => isDigitChar c
  | 'e' :: '-' :: c :: _ => isDigitChar c
  | 'e' :: '+' :: c :: _ => isDigitChar c
  | 'e' :: c :: _ => isDigitChar c
  | 'E' :: '-' :: c :: _ => isDigitChar c
  | 'E' :: '+' :: c :: _ => isDigitChar c
  | 'E' :: c :: _ => isDigitChar c
  | _ => false

def parseNumber (cs : List Char) : Option (Int × List Char) :=
  match parseIntPart cs with
  | some (n, rest) => if floatPartNext rest then none else some (n, rest)
  | none => none

def setItem (k : String) (v : Json) : JObj → JObj
  | .nil => .cons k v .nil
  | .cons k' v' tl => if k = k' then .cons k' v tl else .cons k' v' (setItem k v tl)

def dictAdd : JObj → JObj → JObj
  | acc, .nil => acc
  | acc, .cons k v tl => dictAdd (setItem k v acc) tl

/-- `dict(pairs)`: later duplicate keys overwrite the value but keep the
first occurrence's position, as Python dicts do. -/
def dictOf (ms : JObj) : JObj := dictAdd .nil ms

mutual
/-- One value, fuel-bounded recursive descent (`py_make_scanner`'s
`_scan_once`).  Leading whitespace is not skipped here (Python skips it
in the container loops and at top level). -/
def parseValue : Nat → List Char → Option (Json × List Char)
  | 0, _ => none
  | f + 1, cs =>
    match cs with
    | [] => none
    | c :: cs' =>
      if c = '"' then (parseStringBody cs').map (fun p => (.str ⟨p.1⟩, p.2))
      else if c = '\x7b' then
        match skipWs cs' with
        | [] => none
        | d :: rest =>
          if d = '\x7d' then some (.obj .nil, rest)
          else if d = '"' then
            (parseMemberLoop f rest).map (fun p => (.obj (dictOf p.1), p.2))
          else none
      else if c = '[' then
        match skipWs cs' with
        | [] => parseElemLoop f []
        | d :: rest =>
          if d = ']' then some (.arr .nil, rest)
          else parseElemLoop f (d :: rest)
      else if listStartsWith "null".data cs then some (.null, cs.drop 4)
      else if listStartsWith "true".data cs then some (.bool true, cs.drop 4)
      else if listStartsWith "false".data cs then some (.bool false, cs.drop 5)
      else
        match parseNumber cs with
        | some (n, rest) => some (.num n, rest)
        | none => none
/-- The member loop of `json.decoder.JSONObject`; entered after the
opening quote of a key. -/
def parseMemberLoop : Nat → List Char → Option (JObj × List Char)
  | 0, _ => none
  | f + 1, cs =>
    match parseStringBody cs with
    | none => none
    | some (kb, r1) =>
      match skipWs r1 with
      | [] => none
      | d2 :: r2 =>
        if d2 = ':' then
          match parseValue f (skipWs r2) with
          | none => none
          | some (v, r3) =>
            match skipWs r3 with
            | [] => none
            | d4 :: r4 =>
              if d4 = '\x7d' then some (.cons ⟨kb⟩ v .nil, r4)
              else if d4 = ',' then
                match skipWs r4 with
                | [] => none
                | d5 :: r5 =>
                  if d5 = '"' then
                    (parseMemberLoop f r5).map (fun p => (.cons ⟨kb⟩ v p.1, p.2))
                  else none
              else none
        else none
/-- The element loop of `json.decoder.JSONArray`; entered at the first
character of an element. -/
def parseElemLoop : Nat → List Char → Option (Json × List Char)
  | 0, _ => none
  | f + 1, cs =>
    match parseValue f cs with
    | none => none
    | some (v, r1) =>
      match skipWs r1 with
      | [] => none
      | d2 :: r2 =>
        if d2 = ']' then some (.arr (.cons v .nil), r2)
        else if d2 = ',' then
          match parseElemLoop f (skipWs r2) with
          | some (.arr rest, r3) => some (.arr (.cons v rest), r3)
          | _ => none
        else none
end

/-- `json.loads`: skip leading whitespace, read one value, require only
whitespace to follow. -/
def json_loads (s : String) : Option Json :=
  match parseValue (s.data.length + 1) (skipWs s.data) with
  | some (v, rest) => if skipWs rest = [] then some v else none
  | none => none

/-! ## The diff engine: `difflib.unified_diff`

A faithful embedding of CPython's `difflib.SequenceMatcher` with
`isjunk=None` (so the junk set is empty and the junk-extension loops of
`find_longest_match` are no-ops, which is why they are omitted) and
without the `autojunk` popularity filter, which only becomes active for
sequences of at least 200 lines.  Python's `j2len`/`newj2len` dicts with
`.get(_, 0)` defaults are modelled as total functions defaulting to `0`;
`i-k+1` (always nonnegative in Python, since a match of length `k`
ending at `i` satisfies `k ≤ i+1`) is written `i+1-k`. -/

abbrev Line := List Char

/-- `b2j[x]`: the ascending list of positions of `x` in `b`. -/
def positionsFrom (x : Line) : List Line → Nat → List Nat
  | [], _ => []
  | y :: ys, idx =>
    if y = x then idx :: positionsFrom x ys (idx + 1)
    else positionsFrom x ys (idx + 1)

def b2j (b : List Line) (x : Line) : List Nat := positionsFrom x b 0

structure FlmState where
  besti : Nat
  bestj : Nat
  bestsize : Nat
deriving DecidableEq, Repr

/-- The inner `for j in b2j.get(a[i], nothing)` loop of
`find_longest_match` (with its `continue` below `blo` and `break` at
`bhi`), threading `newj2len` and the best match. -/
def flmInner (i blo bhi : Nat) (prev : Nat → Nat) :
    List Nat → (Nat → Nat) → FlmState → ((Nat → Nat) × FlmState)
  | [], cur, best => (cur, best)
  | j :: js, cur, best =>
    if j < blo then flmInner i blo bhi prev js cur best
    else if bhi ≤ j then (cur, best)
    else
      let k := (if j = 0 then 0 else prev (j - 1)) + 1
      let cur' := fun j2 => if j2 = j then k else cur j2
      let best' := if best.bestsize < k then FlmState.mk (i + 1 - k) (j + 1 - k) k else best
      flmInner i blo bhi prev js cur' best'

/-- The outer `for i in range(alo, ahi)` loop of `find_longest_match`. -/
def flmOuter (a b : List Line) (blo bhi : Nat) :
    List Nat → (Nat → Nat) → FlmState → FlmState
  | [], _, best => best
  | i :: is, j2len, best =>
    let p := flmInner i blo bhi j2len (b2j b (a.getD i [])) (fun _ => 0) best
    flmOuter a b blo bhi is p.1 p.2

/-- The leftward extension `while` loop (empty junk set).  The fuel
bounds the iteration count; `besti` decreases by one per step, so fuel
`besti` always suffices. -/
def extendLeft (a b : List Line) (alo blo : Nat) : Nat → FlmState → FlmState
  | 0, st => st
  | fuel + 1, st =>
    if alo < st.besti && blo < st.bestj &&
        decide (a.getD (st.besti - 1) [] = b.getD (st.bestj - 1) []) then
      extendLeft a b alo blo fuel ⟨st.besti - 1, st.bestj - 1, st.bestsize + 1⟩
    else st

/-- The rightward extension `while` loop (empty junk set); fuel `ahi`
always suffices. -/
def extendRight (a b : List Line) (ahi bhi : Nat) : Nat → FlmState → FlmState
  | 0, st => st
  | fuel + 1, st =>
    if st.besti + st.bestsize < ahi && st.bestj + st.bestsize < bhi &&
        decide (a.getD (st.besti + st.bestsize) [] = b.getD (st.bestj + st.bestsize) []) then
      extendRight a b ahi bhi fuel ⟨st.besti, st.bestj, st.bestsize + 1⟩
    else st

def find_longest_match (a b : List Line) (alo ahi blo bhi : Nat) : FlmState :=
  let st := flmOuter a b blo bhi (List.range' alo (ahi - alo)) (fun _ => 0) ⟨alo, blo, 0⟩
  let st := extendLeft a b alo blo st.besti st
  extendRight a b ahi bhi ahi st

/-- The `while queue` loop of `get_matching_blocks`, as a stack with the
top at the head.  The fuel bounds the iteration count; the ranges pushed
by an iteration are strictly smaller than the popped one, so the number
of iterations is below `2*(la+lb)+4`. -/
def gmbLoop (a b : List Line) :
    Nat → List (Nat × Nat × Nat × Nat) → List (Nat × Nat × Nat) → List (Nat × Nat × Nat)
  | 0, _, acc => acc
  | _ + 1, [], acc => acc
  | fuel + 1, (alo, ahi, blo, bhi) :: queue, acc =>
    let m := find_longest_match a b alo ahi blo bhi
    if m.bestsize ≠ 0 then
      let queue1 :=
        if alo < m.besti && blo < m.bestj then (alo, m.besti, blo, m.bestj) :: queue
        else queue
      let queue2 :=
        if m.besti + m.bestsize < ahi && m.bestj + m.bestsize < bhi then
          (m.besti + m.bestsize, ahi, m.bestj + m.bestsize, bhi) :: queue1
        else queue1
      gmbLoop a b fuel queue2 ((m.besti, m.bestj, m.bestsize) :: acc)
    else gmbLoop a b fuel queue acc

def tripleLe (x y : Nat × Nat × Nat) : Bool :=
  x.1 < y.1 || (x.1 = y.1 && (x.2.1 < y.2.1 || (x.2.1 = y.2.1 && x.2.2 ≤ y.2.2)))

def insTriple (x : Nat × Nat × Nat) : List (Nat × Nat × Nat) → List (Nat × Nat × Nat)
  | [] => [x]
  | y :: ys => if tripleLe x y then x :: y :: ys else y :: insTriple x ys

/-- `matching_blocks.sort()` (the blocks are pairwise distinct, so any
sort yields the unique ordered permutation). -/
def sortTriples : List (Nat × Nat × Nat) → List (Nat × Nat × Nat)
  | [] => []
  | x :: xs => insTriple x (sortTriples xs)

/-- The adjacent-block coalescing loop at the end of
`get_matching_blocks`. -/
def mergeAdjacent : Nat → Nat → Nat → List (Nat × Nat × Nat) → List (Nat × Nat × Nat)
  | i1, j1, k1, [] => if k1 ≠ 0 then [(i1, j1, k1)] else []
  | i1, j1, k1, (i2, j2, k2) :: rest =>
    if i1 + k1 = i2 && j1 + k1 = j2 then mergeAdjacent i1 j1 (k1 + k2) rest
    else if k1 ≠ 0 then (i1, j1, k1) :: mergeAdjacent i2 j2 k2 rest
    else mergeAdjacent i2 j2 k2 rest

def get_matching_blocks (a b : List Line) : List (Nat × Nat × Nat) :=
  let la := a.length
  let lb := b.length
  let blocks := gmbLoop a b (2 * (la + lb) + 4) [(0, la, 0, lb)] []
  mergeAdjacent 0 0 0 (sortTriples blocks) ++ [(la, lb, 0)]

inductive DTag where
  | replace : DTag
  | delete : DTag
  | insert : DTag
  | equal : DTag
deriving DecidableEq, Repr

structure Opcode where
  tag : DTag
  i1 : Nat
  i2 : Nat
  j1 : Nat
  j2 : Nat
deriving DecidableEq, Repr

def opcodesLoop : Nat → Nat → List (Nat × Nat × Nat) → List Opcode
  | _, _, [] => []
  | i, j, (ai, bj, size) :: rest =>
    let pre : List Opcode :=
      if i < ai && j < bj then [⟨.replace, i, ai, j, bj⟩]
      else if i < ai then [⟨.delete, i, ai, j, bj⟩]
      else if j < bj then [⟨.insert, i, ai, j, bj⟩]
      else []
    let eqs : List Opcode :=
      if size ≠ 0 then [⟨.equal, ai, ai + size, bj, bj + size⟩] else []
    pre ++ eqs ++ opcodesLoop (ai + size) (bj + size) rest

def get_opcodes (a b : List Line) : List Opcode := opcodesLoop 0 0 (get_matching_blocks a b)

def modHead (f : Opcode → Opcode) : List Opcode → List Opcode
  | [] => []
  | x :: xs => f x :: xs

def modLast (f : Opcode → Opcode) : List Opcode → List Opcode
  | [] => []
  | [x] => [f x]
  | x :: xs => x :: modLast f xs

def trimHeadOp (n : Nat) (c : Opcode) : Opcode :=
  if c.tag = .equal then ⟨.equal, max c.i1 (c.i2 - n), c.i2, max c.j1 (c.j2 - n), c.j2⟩ else c

def trimLastOp (n : Nat) (c : Opcode) : Opcode :=
  if c.tag = .equal then ⟨.equal, c.i1, min c.i2 (c.i1 + n), c.j1, min c.j2 (c.j1 + n)⟩ else c

/-- The grouping loop of `get_grouped_opcodes`. -/
def groupLoop (n : Nat) : List Opcode → List Opcode → List (List Opcode)
  | group, [] =>
    (match group with
     | [] => []
     | [c] => if c.tag = .equal then [] else [[c]]
     | _ => [group])
  | group, c :: rest =>
    if c.tag = .equal && n + n < c.i2 - c.i1 then
      (group ++ [⟨.equal, c.i1, min c.i2 (c.i1 + n), c.j1, min c.j2 (c.j1 + n)⟩]) ::
        groupLoop n [⟨.equal, max c.i1 (c.i2 - n), c.i2, max c.j1 (c.j2 - n), c.j2⟩] rest
    else groupLoop n (group ++ [c]) rest

def get_grouped_opcodes (a b : List Line) (n : Nat) : List (List Opcode) :=
  let codes0 := get_opcodes a b
  let codes1 := if codes0 = [] then [⟨.equal, 0, 1, 0, 1⟩] else codes0
  groupLoop n [] (modLast (trimLastOp n) (modHead (trimHeadOp n) codes1))

def formatRangeUnified (start stop : Nat) : List Char :=
  let beginning := start + 1
  let length := stop - start
  if length = 1 then natDigits beginning
  else natDigits (if length = 0 then start else beginning) ++ ',' :: natDigits length

def opcodeLines (a b : List Line) (c : Opcode) : List Line :=
  match c.tag with
  | .equal => ((a.drop c.i1).take (c.i2 - c.i1)).map (fun l => ' ' :: l)
  | .replace =>
    ((a.drop c.i1).take (c.i2 - c.i1)).map (fun l => '-' :: l) ++
      ((b.drop c.j1).take (c.j2 - c.j1)).map (fun l => '+' :: l)
  | .delete => ((a.drop c.i1).take (c.i2 - c.i1)).map (fun l => '-' :: l)
  | .insert => ((b.drop c.j1).take (c.j2 - c.j1)).map (fun l => '+' :: l)

def hunkOf (a b : List Line) (lineterm : List Char) (g : List Opcode) : List Line :=
  match g with
  | [] => []
  | first :: _ =>
    let last := g.getLastD first
    ("@@ -".data ++ formatRangeUnified first.i1 last.i2 ++
      " +".data ++ formatRangeUnified first.j1 last.j2 ++ " @@".data ++ lineterm) ::
      (g.map (opcodeLines a b)).flatten

/-- `difflib.unified_diff(a, b, fromfile, tofile, lineterm=lineterm)`
with the default `n=3` context. -/
def unified_diff (a b : List Line) (fromfile tofile lineterm : List Char) : List Line :=
  match get_grouped_opcodes a b 3 with
  | [] => []
  | gs =>
    ("--- ".data ++ fromfile ++ lineterm) ::
      ("+++ ".data ++ tofile ++ lineterm) ::
      (gs.map (hunkOf a b lineterm)).flatten

/-! ## `scripts/update_context.py`

`main()` as a pure function of the timestamp (`datetime.now()`), the
standard-input text, and the state of the two files.  `Path.home()` is
abstracted into the `$HOME` placeholder of the two path constants, which
are only used inside report messages.  The filesystem actions are
recorded in program order in `events`; the changelog is a plain string
(`open(..., 'a')` appends to it), and the context file is an
`Option String` (`None` = file absent).  The detail text of a
`JSONDecodeError` interpolated into the invalid-input diagnostic is
elided. -/

inductive FsEvent where
  | mkdirLogParent : FsEvent
  | appendLog (entry : String) : FsEvent
  | writeContext (text : String) : FsEvent
deriving DecidableEq, Repr

structure FileState where
  contextFile : Option String
  changelog : String
deriving DecidableEq, Repr

inductive UpdateOutcome where
  | applied : UpdateOutcome
  | noChanges : UpdateOutcome
  | errorNoContent : UpdateOutcome
  | errorInvalidJson : UpdateOutcome
deriving DecidableEq, Repr

structure UpdateResult where
  outcome : UpdateOutcome
  exitCode : Nat
  stdout : List String
  stderr : List String
  state : FileState
  events : List FsEvent
deriving DecidableEq, Repr

def contextFilePath : String := "$HOME/claude_context.json"

def changelogPath : String := "$HOME/.claude/context_changelog.diff"

/-- `"=" * 60`. -/
def separator60 : String := ⟨List.replicate 60 '='⟩

def natToStr (n : Nat) : String := ⟨natDigits n⟩

def countAdditions (dl : List Line) : Nat :=
  (dl.filter (fun l => listStartsWith ['+'] l && !listStartsWith ['+', '+', '+'] l)).length

def countDeletions (dl : List Line) : Nat :=
  (dl.filter (fun l => listStartsWith ['-'] l && !listStartsWith ['-', '-', '-'] l)).length

def update_main (now : String) (stdin : String) (st : FileState) : UpdateResult :=
  let new_content := pyStrip stdin.data
  if new_content = [] then
    ⟨.errorNoContent, 1, [], ["ERROR: No content provided on stdin"], st, []⟩
  else
    match json_loads ⟨new_content⟩ with
    | none => ⟨.errorInvalidJson, 1, [], ["ERROR: Invalid JSON in new content"], st, []⟩
    | some new_json =>
      let parsedOld : Json × List String :=
        match st.contextFile with
        | some s =>
          match json_loads s with
          | some oj => (oj, [])
          | none =>
            (.obj .nil, ["WARNING: Current context file is invalid JSON, will be overwritten"])
        | none => (.obj .nil, [])
      let old_json := parsedOld.1
      let warn := parsedOld.2
      let old_formatted := (json_dumps_sorted old_json).data ++ ['\n']
      let new_formatted := (json_dumps_sorted new_json).data ++ ['\n']
      let diff_lines := unified_diff (splitLinesKeep old_formatted) (splitLinesKeep new_formatted)
          "claude_context.json.old".data "claude_context.json.new".data []
      if diff_lines = [] then
        ⟨.noChanges, 0, ["No changes detected"], warn, st, []⟩
      else
        let entry : String :=
          ⟨'\n' :: separator60.data ++ '\n' :: '#' :: ' ' :: now.data ++
            '\n' :: separator60.data ++ '\n' :: diff_lines.flatten ++ ['\n']⟩
        let newStore : String := ⟨(json_dumps_pretty new_json).data ++ ['\n']⟩
        ⟨.applied, 0,
          ["Updated " ++ contextFilePath,
            "  +" ++ natToStr (countAdditions diff_lines) ++ " -" ++
              natToStr (countDeletions diff_lines) ++ " lines",
            "Diff appended to " ++ changelogPath],
          warn,
          ⟨some newStore, st.changelog ++ entry⟩,
          [.mkdirLogParent, .appendLog entry, .writeContext newStore]⟩

/-! ## `scripts/scanner.py`

The scanner reads the outside world through `subprocess.run`,
`shutil.which`, `platform.system()`, `socket.gethostname()` and the
`~/.ssh` directory; these are collected into a `ScanEnv` record, and
every scan function is a pure function of it.  `subprocess.run` either
completes (with captured stdout and a return code) or raises; the
`except` clause of `run_command` catches `TimeoutExpired`,
`SubprocessError` and `FileNotFoundError` only. -/

inductive Cmd where
  | argv (args : List String) : Cmd
  | shell (line : String) : Cmd
deriving DecidableEq, Repr

inductive CmdOutcome where
  | completed (stdout : String) (returncode : Int) : CmdOutcome
  | raised (e : PyErr) : CmdOutcome
deriving DecidableEq, Repr

/-- One `*.pub` file of `~/.ssh`: its stem, its full path as a string,
its text content, and whether a file with the same stem (the private
key) exists alongside. -/
structure SshPub where
  stem : String
  pathStr : String
  content : String
  privateExists : Bool
deriving DecidableEq, Repr

structure ScanEnv where
  rawSystem : String
  hostname : String
  exec : Cmd → CmdOutcome
  which : String → Bool
  sshDirExists : Bool
  sshPubs : List SshPub

/-- `run_command`: trimmed stdout on completion (whatever the return
code), `""` when one of the three listed exception classes is raised,
and an uncaught propagating exception otherwise (e.g. the
`PermissionError` a non-executable command file causes, which is an
`OSError` but not a `FileNotFoundError` and not a `SubprocessError`). -/
def run_command (env : ScanEnv) (cmd : Cmd) : Except PyErr String :=
  match env.exec cmd with
  | .completed out _ => .ok (pyStripS out)
  | .raised e =>
    if e = .timeoutExpired || e = .subprocessError || e = .fileNotFoundError then .ok ""
    else .error e

def get_platform (env : ScanEnv) : String :=
  let system := pyLower env.rawSystem
  if system = "darwin" then "macos" else system

structure CpuInfo where
  model : String
  cores : Int
  threads : Int
deriving DecidableEq, Repr

/-- Python `line.split(":", 1)`. -/
def splitColon1 (s : String) : List String :=
  match splitOnChar ':' s.data with
  | [] => [s]
  | [x] => [⟨x⟩]
  | x :: rest => [⟨x⟩, ⟨(String.intercalate ":" (rest.map (fun l => ⟨l⟩))).data⟩]

/-- `line.split(":", 1)[1]` with `IndexError` when there is no colon. -/
def afterColon (s : String) : Except PyErr String :=
  match splitColon1 s with
  | [_, rest] => .ok rest
  | _ => .error .indexError

/-- The `lscpu` line loop of `scan_cpu`: each line's `try` absorbs
`ValueError`/`IndexError`, leaving the accumulated fields unchanged. -/
def cpuLinuxLine (st : CpuInfo × Option Int × Option Int) (line : String) :
    CpuInfo × Option Int × Option Int :=
  let info := st.1
  let cores_per := st.2.1
  let sockets := st.2.2
  let step : Except PyErr (CpuInfo × Option Int × Option Int) :=
    if pyStartsWith "Model name:" line then do
      let r ← afterColon line
      .ok (⟨pyStripS r, info.cores, info.threads⟩, cores_per, sockets)
    else if pyStartsWith "CPU(s):" line then do
      let r ← afterColon line
      let n ← pyIntOfString (pyStripS r)
      .ok (⟨info.model, info.cores, n⟩, cores_per, sockets)
    else if pyStartsWith "Core(s) per socket:" line then do
      let r ← afterColon line
      let n ← pyIntOfString (pyStripS r)
      .ok (info, some n, sockets)
    else if pyStartsWith "Socket(s):" line then do
      let r ← afterColon line
      let n ← pyIntOfString (pyStripS r)
      .ok (info, cores_per, some n)
    else .ok (info, cores_per, sockets)
  match step with
  | .ok st' => st'
  | .error _ => (info, cores_per, sockets)

def scan_cpu (env : ScanEnv) : Except PyErr CpuInfo := do
  let platform := get_platform env
  let cpu_info : CpuInfo := ⟨"Unknown", 0, 0⟩
  if platform = "linux" then
    let lscpu ← run_command env (.argv ["lscpu"])
    let st := (pySplitS '\n' lscpu).foldl cpuLinuxLine (cpu_info, none, none)
    match st.2.1, st.2.2 with
    | some cp, some sk =>
      if cp ≠ 0 && sk ≠ 0 then .ok ⟨st.1.model, cp * sk, st.1.threads⟩ else .ok st.1
    | _, _ => .ok st.1
  else if platform = "macos" then
    let brand ← run_command env (.argv ["sysctl", "-n", "machdep.cpu.brand_string"])
    let model := if brand = "" then "Unknown" else brand
    let cores ← run_command env (.argv ["sysctl", "-n", "hw.physicalcpu"])
    let threads ← run_command env (.argv ["sysctl", "-n", "hw.logicalcpu"])
    let parsed : Except PyErr (Int × Int) := do
      let c ← if cores ≠ "" then pyIntOfString cores else .ok 0
      let t ← if threads ≠ "" then pyIntOfString threads else .ok 0
      .ok (c, t)
    match parsed with
    | .ok (c, t) =>
      .ok ⟨model, if cores ≠ "" then c else 0, if threads ≠ "" then t else 0⟩
    | .error _ =>
      -- the single `try` wraps both conversions: if `int(cores)` succeeds
      -- but `int(threads)` raises, the cores assignment is kept
      match (if cores ≠ "" then pyIntOfString cores else .ok 0) with
      | .ok c => .ok ⟨model, if cores ≠ "" then c else 0, 0⟩
      | .error _ => .ok ⟨model, 0, 0⟩
  else if platform = "windows" then
    let wmic ← run_command env
      (.shell "wmic cpu get name,numberofcores,numberoflogicalprocessors /format:csv")
    let lines := (pySplitS '\n' wmic).filter
      (fun l => pyStripS l ≠ "" && !pyStartsWith "Node" l)
    match lines with
    | [] => .ok cpu_info
    | l :: _ =>
      let parts := pySplitS ',' l
      if parts.length ≥ 4 then do
        let cores ←
          if pyIsDigit (pyStripS (parts.getD 2 "")) then pyIntOfString (parts.getD 2 "")
          else .ok 0
        let threads ←
          if pyIsDigit (pyStripS (parts.getD 3 "")) then pyIntOfString (parts.getD 3 "")
          else .ok 0
        .ok ⟨pyStripS (parts.getD 1 ""), cores, threads⟩
      else .ok cpu_info
  else .ok cpu_info

/-- Round-half-even of `n / 2^p` (Python `round` of a float quotient by
a power of two, which binary floats represent exactly for the magnitudes
a real system produces). -/
def pyRoundPow2 (n : Int) (p : Nat) : Int :=
  let d : Int := (2 : Int) ^ p
  let q := Int.fdiv n d
  let r := n - q * d
  if d < 2 * r then q + 1
  else if 2 * r < d then q
  else if q % 2 = 0 then q else q + 1

structure MemInfo where
  total_gb : Int
deriving DecidableEq, Repr

/-- The `MemTotal` line loop of `scan_memory` (linux): the first
matching line is parsed with an unguarded `int(line.split()[1])`, so a
malformed value raises out of the scan. -/
def memLinuxLines (mem : MemInfo) : List String → Except PyErr MemInfo
  | [] => .ok mem
  | line :: rest =>
    if pyStartsWith "MemTotal:" line then do
      let tok ←
        match (pySplitWs line).getD 1 "" , (pySplitWs line).length with
        | _, 0 => .error .indexError
        | _, 1 => .error .indexError
        | t, _ => .ok t
      let kb ← pyIntOfString tok
      .ok ⟨pyRoundPow2 kb 20⟩
    else memLinuxLines mem rest

def scan_memory (env : ScanEnv) : Except PyErr MemInfo := do
  let platform := get_platform env
  let mem_info : MemInfo := ⟨0⟩
  if platform = "linux" then
    let meminfo ← run_command env (.argv ["cat", "/proc/meminfo"])
    memLinuxLines mem_info (pySplitS '\n' meminfo)
  else if platform = "macos" then
    let mem_bytes ← run_command env (.argv ["sysctl", "-n", "hw.memsize"])
    if mem_bytes ≠ "" then do
      let b ← pyIntOfString mem_bytes
      .ok ⟨pyRoundPow2 b 30⟩
    else .ok mem_info
  else if platform = "windows" then
    let wmic ← run_command env
      (.shell "wmic computersystem get totalphysicalmemory /format:csv")
    let lines := (pySplitS '\n' wmic).filter
      (fun l => pyStripS l ≠ "" && !pyStartsWith "Node" l)
    match lines with
    | [] => .ok mem_info
    | l :: _ =>
      let parts := pySplitS ',' l
      if parts.length ≥ 2 && pyIsDigit (pyStripS (parts.getD 1 "")) then do
        let b ← pyIntOfString (parts.getD 1 "")
        .ok ⟨pyRoundPow2 b 30⟩
      else .ok mem_info
  else .ok mem_info

/-! ### GPU scan -/

structure Gpu where
  vendor : String
  index : Option Int
  model : String
  vram_mb : Option Int
  pcie_bus : Option String
  uuid : Option String
  source : Option String
deriving DecidableEq, Repr

/-- Count of leading regex-`\s` characters. -/
def wsRunLen : List Char → Nat
  | [] => 0
  | c :: cs => if pyIsSpace c then wsRunLen cs + 1 else 0

/-- Try every split of `rest` into a lazy group `(.+?)` (shortest first,
never containing `'\n'`, which `.` cannot match) followed by `\s*\[`:
after the group the whole whitespace run must be followed by `'['`
(inside the run only whitespace occurs, so no shorter run can end at
`'['). -/
def tryGroupAux (pre : List Char) : List Char → Option (List Char)
  | [] => none
  | c :: rest =>
    if c = '\n' then none
    else
      let pre' := c :: pre
      let m := wsRunLen rest
      if rest.getD m ' ' = '[' && rest.length > m then some pre'.reverse
      else tryGroupAux pre' rest

/-- Backtrack the greedy leading `\s*` from the longest run down. -/
def tryWs (r : List Char) : Nat → Option (List Char)
  | 0 => tryGroupAux [] r
  | w + 1 =>
    match tryGroupAux [] (r.drop (w + 1)) with
    | some g => some g
    | none => tryWs r w

/-- `re.search(r":\s*(.+?)\s*\[", line)`: the captured group of the
leftmost match (backtracking priority: leading `\s*` greedy, group
lazy), or `none`. -/
def reSearchColonBracket : List Char → Option (List Char)
  | [] => none
  | c :: cs =>
    if c = ':' then
      match tryWs cs (wsRunLen cs) with
      | some g => some g
      | none => reSearchColonBracket cs
    else reSearchColonBracket cs

/-- `int(x)` on a JSON value: ints unchanged, bools to 0/1, strings
parsed (`ValueError` on failure), anything else a `TypeError`. -/
def pyToInt : Json → Except PyErr Int
  | .num n => .ok n
  | .bool b => .ok (if b then 1 else 0)
  | .str s => pyIntOfString s
  | _ => .error .typeError

def jobjLookup : JObj → String → Json → Json
  | .nil, _, dflt => dflt
  | .cons k v tl, key, dflt => if k = key then v else jobjLookup tl key dflt

/-- `d.get(key, default)`: `AttributeError` when `d` is not a dict. -/
def jsonGet (v : Json) (key : String) (dflt : Json) : Except PyErr Json :=
  match v with
  | .obj ms => .ok (jobjLookup ms key dflt)
  | _ => .error .attributeError

/-- Python truthiness of a JSON value. -/
def jsonTruthy : Json → Bool
  | .null => false
  | .bool b => b
  | .num n => n ≠ 0
  | .str s => s ≠ ""
  | .arr .nil => false
  | .arr (.cons _ _) => true
  | .obj .nil => false
  | .obj (.cons _ _ _) => true

/-- `int(float(s) * 1024)` for a decimal numeral (exponent forms and
binary-float rounding are not modelled; no claim involves them):
truncates toward zero. -/
def pyFloatMul1024 (s : String) : Except PyErr Int :=
  let t := pyStrip s.data
  let split : List Char → Except PyErr (Bool × List Char × List Char) := fun u =>
    let core : List Char → Except PyErr (List Char × List Char) := fun v =>
      match splitOnChar '.' v with
      | [ip] => if ip ≠ [] && ip.all isDigitChar then .ok (ip, []) else .error .valueError
      | [ip, fp] =>
        if (ip ≠ [] || fp ≠ []) && ip.all isDigitChar && fp.all isDigitChar then .ok (ip, fp)
        else .error .valueError
      | _ => .error .valueError
    match u with
    | '-' :: v => (core v).map (fun p => (true, p.1, p.2))
    | '+' :: v => (core v).map (fun p => (false, p.1, p.2))
    | v => (core v).map (fun p => (false, p.1, p.2))
  match split t with
  | .error e => .error e
  | .ok (neg, ip, fp) =>
    let den : Int := (10 : Int) ^ fp.length
    let mag : Int := (digitsToNat 0 ip : Int) * den + (digitsToNat 0 fp : Int)
    let v := Int.tdiv (mag * 1024) den
    .ok (if neg then -v else v)

/-- The `nvidia-smi` CSV line loop: `int(parts[0])` is unguarded, so a
non-numeric index column raises `ValueError` out of the scan. -/
def nvidiaLines (acc : List Gpu) : List String → Except PyErr (List Gpu)
  | [] => .ok acc
  | line :: rest =>
    if pyStripS line = "" then nvidiaLines acc rest
    else
      let parts := (pySplitS ',' line).map pyStripS
      if parts.length ≥ 5 then do
        let idx ← pyIntOfString (parts.getD 0 "")
        let vram ←
          if pyIsDigit (parts.getD 2 "") then pyIntOfString (parts.getD 2 "") else .ok 0
        nvidiaLines (acc ++ [⟨"NVIDIA", some idx, parts.getD 1 "", some vram,
          some (parts.getD 3 ""), some (parts.getD 4 ""), none⟩]) rest
      else nvidiaLines acc rest

/-- The `rocm-smi` card loop: mirrors in-place `gpus.append` inside a
`try`, so an exception keeps the entries appended before it.  A
non-string `"Card series"` value (never produced by `rocm-smi`) is
modelled as an immediate `TypeError`; Python would store it and only
fail later, inside the lspci containment test. -/
def rocmCards (acc : List Gpu) : JObj → List Gpu × Option PyErr
  | .nil => (acc, none)
  | .cons card_id card_info tl =>
    if pyStartsWith "card" card_id then
      let step : Except PyErr Gpu := do
        let idx ← pyIntOfString (pyReplace card_id "card" "")
        let modelJ ← jsonGet card_info "Card series" (.str "Unknown AMD GPU")
        let model ← (match modelJ with
          | .str s => Except.ok s
          | _ => Except.error PyErr.typeError)
        let vramJ ← jsonGet card_info "VRAM Total Memory (B)" (.num 0)
        let vram ← pyToInt vramJ
        .ok ⟨"AMD", some idx, model, some (Int.fdiv vram (1024 * 1024)), none, none, none⟩
      match step with
      | .ok g => rocmCards (acc ++ [g]) tl
      | .error e => (acc, some e)
    else rocmCards acc tl

/-- The lspci fallback loop (linux): an AMD candidate is appended only
when no existing entry has `"AMD"` in its vendor and the candidate's
model as a substring of its model; Intel candidates are always
appended. -/
def lspciFold (acc : List Gpu) : List String → List Gpu
  | [] => acc
  | line :: rest =>
    if pyInS "VGA" line || pyInS "3D controller" line then
      if pyInS "AMD" line || pyInS "ATI" line || pyInS "Radeon" line then
        let model : String :=
          match reSearchColonBracket line.data with
          | some g => ⟨g⟩
          | none => "AMD GPU"
        if !(acc.any (fun g => pyInS "AMD" g.vendor && pyInS model g.model)) then
          lspciFold (acc ++ [⟨"AMD", none, model, none, none, none, some "lspci"⟩]) rest
        else lspciFold acc rest
      else if pyInS "Intel" line then
        let model : String :=
          match reSearchColonBracket line.data with
          | some g => ⟨g⟩
          | none => "Intel GPU"
        lspciFold (acc ++ [⟨"Intel", none, model, none, none, none, some "lspci"⟩]) rest
      else lspciFold acc rest
    else lspciFold acc rest

/-- One `system_profiler` display entry (macos). -/
def spDisplay (i : Nat) (gpu : Json) : Except PyErr Gpu := do
  let vendJ ← jsonGet gpu "sppci_vendor" (.str "")
  let vendS ← (match vendJ with
    | .str s => Except.ok s
    | _ => Except.error PyErr.attributeError)
  let vendPresent := match gpu with
    | .obj ms => keyMem "sppci_vendor" ms
    | _ => false
  let vendor := if pyInS "apple" (pyLower vendS) then "Apple"
    else if vendPresent then vendS else "Unknown"
  let modelJ ← jsonGet gpu "sppci_model" (.str "Unknown")
  let model ← (match modelJ with
    | .str s => Except.ok s
    | _ => Except.error PyErr.typeError)
  let vramJ ← jsonGet gpu "spdisplays_vram" (.str "")
  if jsonTruthy vramJ then do
    let vram ← (match vramJ with
      | .str s => Except.ok s
      | _ => Except.error PyErr.typeError)
    if pyInS "MB" vram then do
      let mb ← pyIntOfString (pyStripS (pyReplace vram "MB" ""))
      .ok ⟨vendor, some (Int.ofNat i), model, some mb, none, none, none⟩
    else if pyInS "GB" vram then do
      let mb ← pyFloatMul1024 (pyStripS (pyReplace vram "GB" ""))
      .ok ⟨vendor, some (Int.ofNat i), model, some mb, none, none, none⟩
    else .ok ⟨vendor, some (Int.ofNat i), model, none, none, none, none⟩
  else .ok ⟨vendor, some (Int.ofNat i), model, none, none, none, none⟩

def spDisplays (acc : List Gpu) (i : Nat) : JArr → List Gpu × Option PyErr
  | .nil => (acc, none)
  | .cons gpu tl =>
    match spDisplay i gpu with
    | .ok g => spDisplays (acc ++ [g]) (i + 1) tl
    | .error e => (acc, some e)

/-- The windows `wmic` video-controller loop. -/
def wmicGpuLines (acc : List Gpu) (i : Nat) : List String → Except PyErr (List Gpu)
  | [] => .ok acc
  | line :: rest =>
    let parts := pySplitS ',' line
    if parts.length ≥ 3 then do
      let vram_bytes ←
        if pyIsDigit (pyStripS (parts.getD 1 "")) then pyIntOfString (parts.getD 1 "")
        else .ok 0
      let model := pyStripS (parts.getD 2 "")
      let vendor :=
        if pyInS "nvidia" (pyLower model) then "NVIDIA"
        else if pyInS "amd" (pyLower model) || pyInS "radeon" (pyLower model) then "AMD"
        else if pyInS "intel" (pyLower model) then "Intel"
        else "Unknown"
      wmicGpuLines (acc ++ [⟨vendor, some (Int.ofNat i), model,
        some (Int.fdiv vram_bytes (1024 * 1024)), none, none, none⟩]) (i + 1) rest
    else wmicGpuLines acc (i + 1) rest

/-- Is an exception absorbed by `except (json.JSONDecodeError, KeyError,
ValueError)`? -/
def caughtByGpuExcept (e : PyErr) : Bool :=
  e = .jsonDecodeError || e = .keyError || e = .valueError

def scan_gpus (env : ScanEnv) : Except PyErr (List Gpu) := do
  let platform := get_platform env
  -- NVIDIA via nvidia-smi
  let gpus ←
    if env.which "nvidia-smi" then do
      let output ← run_command env (.argv ["nvidia-smi",
        "--query-gpu=index,name,memory.total,pci.bus_id,uuid",
        "--format=csv,noheader,nounits"])
      nvidiaLines [] (pySplitS '\n' output)
    else .ok []
  -- AMD via rocm-smi
  let gpus ←
    if env.which "rocm-smi" then do
      let output ← run_command env (.argv ["rocm-smi", "--showproductname",
        "--showmeminfo", "vram", "--json"])
      if output ≠ "" then
        match json_loads output with
        | none => .ok gpus  -- json.JSONDecodeError, caught
        | some data =>
          match data with
          | .obj ms =>
            let p := rocmCards gpus ms
            match p.2 with
            | none => .ok p.1
            | some e => if caughtByGpuExcept e then .ok p.1 else .error e
          | _ => .error .attributeError  -- data.items() on a non-dict
      else .ok gpus
    else .ok gpus
  -- Linux: fallback to lspci for AMD/Intel if no vendor tools
  let gpus ←
    if platform = "linux" && !(gpus.any (fun g => g.vendor = "AMD")) then do
      let lspci ← run_command env (.argv ["lspci", "-nn"])
      .ok (lspciFold gpus (pySplitS '\n' lspci))
    else .ok gpus
  -- macOS: Apple Silicon or discrete GPUs
  let gpus ←
    if platform = "macos" then do
      let sp_output ← run_command env (.argv ["system_profiler", "SPDisplaysDataType", "-json"])
      if sp_output ≠ "" then
        match json_loads sp_output with
        | none => .ok gpus  -- caught
        | some data => do
          let displaysJ ← jsonGet data "SPDisplaysDataType" (.arr .nil)
          match displaysJ with
          | .arr l =>
            let p := spDisplays gpus 0 l
            match p.2 with
            | none => .ok p.1
            | some e => if caughtByGpuExcept e then .ok p.1 else .error e
          | .str s => if s = "" then .ok gpus else .error .attributeError
          | .obj ms => if joIsNil ms then .ok gpus else .error .attributeError
          | _ => .error .typeError  -- enumerate() of a non-iterable
      else .ok gpus
    else .ok gpus
  -- Windows: fallback to wmic if no NVIDIA
  if platform = "windows" && gpus.isEmpty then do
    let wmic ← run_command env
      (.shell "wmic path win32_videocontroller get name,adapterram /format:csv")
    let lines := (pySplitS '\n' wmic).filter
      (fun l => pyStripS l ≠ "" && !pyStartsWith "Node" l)
    wmicGpuLines gpus 0 lines
  else .ok gpus

/-! ### Storage, network, SSH keys, and the aggregator -/

structure StorageDev where
  device : String
  size : String
  model : String
deriving DecidableEq, Repr

def storageLinuxLines (acc : List StorageDev) : List String → List StorageDev
  | [] => acc
  | line :: rest =>
    let parts := pySplitWs line
    if parts.length ≥ 3 && parts.getD 2 "" = "disk" then
      storageLinuxLines (acc ++ [⟨"/dev/" ++ parts.getD 0 "", parts.getD 1 "",
        if parts.length > 3 then String.intercalate " " (parts.drop 3) else "Unknown"⟩]) rest
    else storageLinuxLines acc rest

def storageMacLines (acc : List StorageDev) : List String → List StorageDev
  | [] => acc
  | line :: rest =>
    if pyStartsWith "/dev/disk" line && pyInS "physical" (pyLower line) then
      storageMacLines (acc ++ [⟨pyRstripChar ':' ((pySplitWs line).getD 0 ""),
        "Unknown", "Unknown"⟩]) rest
    else storageMacLines acc rest

def storageWinLines (acc : List StorageDev) : List String → Except PyErr (List StorageDev)
  | [] => .ok acc
  | line :: rest =>
    let parts := pySplitS ',' line
    if parts.length ≥ 3 then do
      let size_bytes ←
        if pyIsDigit (pyStripS (parts.getD 2 "")) then pyIntOfString (parts.getD 2 "")
        else .ok 0
      storageWinLines (acc ++ [⟨"N/A", ⟨intRepr (pyRoundPow2 size_bytes 30) ++ ['G']⟩,
        pyStripS (parts.getD 1 "")⟩]) rest
    else storageWinLines acc rest

def scan_storage (env : ScanEnv) : Except PyErr (List StorageDev) := do
  let platform := get_platform env
  if platform = "linux" then do
    let lsblk ← run_command env (.argv ["lsblk", "-d", "-o", "NAME,SIZE,TYPE,MODEL", "-n"])
    .ok (storageLinuxLines [] (pySplitS '\n' lsblk))
  else if platform = "macos" then do
    -- the `-plist` probe runs (and can raise) even though its output is unused
    let _ ← run_command env (.argv ["diskutil", "list", "-plist"])
    let output ← run_command env (.argv ["diskutil", "list"])
    .ok (storageMacLines [] (pySplitS '\n' output))
  else if platform = "windows" then do
    let wmic ← run_command env (.shell "wmic diskdrive get model,size /format:csv")
    let lines := (pySplitS '\n' wmic).filter
      (fun l => pyStripS l ≠ "" && !pyStartsWith "Node" l)
    storageWinLines [] lines
  else .ok []

structure NetIface where
  name : String
  ipv4 : List String
  ipv6 : List String
deriving DecidableEq, Repr

structure NetworkInfo where
  interfaces : List NetIface
deriving DecidableEq, Repr

/-- Append an address to a named interface, creating the entry at the
end on first sight (Python dict insertion order). -/
def netAdd (name : String) (isV4 : Bool) (addr : String) : List NetIface → List NetIface
  | [] =>
    if isV4 then [⟨name, [addr], []⟩] else [⟨name, [], [addr]⟩]
  | i :: is =>
    if i.name = name then
      (if isV4 then (⟨i.name, i.ipv4 ++ [addr], i.ipv6⟩ : NetIface)
       else ⟨i.name, i.ipv4, i.ipv6 ++ [addr]⟩) :: is
    else i :: netAdd name isV4 addr is

/-- `interfaces[name] = {"name": ..., "ipv4": [], "ipv6": []}`: resets
an existing entry in place, appends a fresh one otherwise. -/
def netReset (name : String) : List NetIface → List NetIface
  | [] => [⟨name, [], []⟩]
  | i :: is => if i.name = name then ⟨name, [], []⟩ :: is else i :: netReset name is

def netLinuxLines (acc : List NetIface) : List String → List NetIface
  | [] => acc
  | line :: rest =>
    let parts := pySplitWs line
    if parts.length ≥ 4 && (parts.getD 2 "" = "inet" || parts.getD 2 "" = "inet6") then
      let iface := parts.getD 1 ""
      let addr := (pySplitS '/' (parts.getD 3 "")).getD 0 ""
      netLinuxLines (netAdd iface (parts.getD 2 "" = "inet") addr acc) rest
    else netLinuxLines acc rest

/-- `parts.index(tok)` (`ValueError` when absent). -/
def pyIndexOf (tok : String) : List String → Except PyErr Nat
  | [] => .error .valueError
  | x :: xs =>
    if x = tok then .ok 0
    else (pyIndexOf tok xs).map (· + 1)

def netMacLines (cur : Option String) (acc : List NetIface) :
    List String → Except PyErr (List NetIface)
  | [] => .ok acc
  | line :: rest =>
    if line ≠ "" && !pyStartsWith "\t" line && pyInS ":" line then
      let name := (pySplitS ':' line).getD 0 ""
      netMacLines (some name) (netReset name acc) rest
    else
      match cur with
      | some name =>
        if pyInS "inet " line then do
          let parts := pySplitWs line
          let idx0 ← pyIndexOf "inet" parts
          let idx := idx0 + 1
          if idx < parts.length then
            netMacLines cur (netAdd name true (parts.getD idx "") acc) rest
          else netMacLines cur acc rest
        else if pyInS "inet6 " line then do
          let parts := pySplitWs line
          let idx0 ← pyIndexOf "inet6" parts
          let idx := idx0 + 1
          if idx < parts.length then
            netMacLines cur
              (netAdd name false ((pySplitS '%' (parts.getD idx "")).getD 0 "") acc) rest
          else netMacLines cur acc rest
        else netMacLines cur acc rest
      | none => netMacLines cur acc rest

def netWinLines (cur : Option String) (acc : List NetIface) :
    List String → List NetIface
  | [] => acc
  | line :: rest =>
    if pyInS "adapter" (pyLower line) && pyInS ":" line then
      let name := pyStripS ((pySplitS ':' line).getD 0 "")
      netWinLines (some name) (netReset name acc) rest
    else
      match cur with
      | some name =>
        if pyInS "ipv4" (pyLower line) then
          let parts := pySplitS ':' line
          if parts.length ≥ 2 then
            netWinLines cur (netAdd name true (pyStripS (parts.getD 1 "")) acc) rest
          else netWinLines cur acc rest
        else if pyInS "ipv6" (pyLower line) then
          let parts := pySplitS ':' line
          if parts.length ≥ 2 then
            netWinLines cur
              (netAdd name false (pyStripS (String.intercalate ":" (parts.drop 1))) acc) rest
          else netWinLines cur acc rest
        else netWinLines cur acc rest
      | none => netWinLines cur acc rest

def scan_network (env : ScanEnv) : Except PyErr NetworkInfo := do
  let platform := get_platform env
  if platform = "linux" then do
    let ip_output ← run_command env (.argv ["ip", "-o", "addr", "show"])
    .ok ⟨netLinuxLines [] (pySplitS '\n' ip_output)⟩
  else if platform = "macos" then do
    let ifconfig ← run_command env (.argv ["ifconfig"])
    let ifaces ← netMacLines none [] (pySplitS '\n' ifconfig)
    .ok ⟨ifaces.filter (fun v => !v.ipv4.isEmpty || !v.ipv6.isEmpty)⟩
  else if platform = "windows" then do
    let ipconfig ← run_command env (.shell "ipconfig")
    .ok ⟨(netWinLines none [] (pySplitS '\n' ipconfig)).filter (fun v => !v.ipv4.isEmpty)⟩
  else .ok ⟨[]⟩

structure SshKeyRec where
  name : String
  public_key : String
  has_private : Bool
  keyType : Option String
deriving DecidableEq, Repr

def scan_ssh_keys (env : ScanEnv) : List SshKeyRec :=
  if !env.sshDirExists then []
  else
    env.sshPubs.map (fun p =>
      let content := pyStripS p.content
      ⟨p.stem, p.pathStr, p.privateExists,
        if pyStartsWith "ssh-" content then some ((pySplitWs content).getD 0 "") else none⟩)

structure Snapshot where
  platform : String
  hostname : String
  cpu : CpuInfo
  memory : MemInfo
  gpus : List Gpu
  storage : List StorageDev
  network : NetworkInfo
  ssh_keys : List SshKeyRec
deriving DecidableEq, Repr

/-- `SystemScanner.scan_all`: the dict literal calls every extractor in
order with no exception handling, so the first raising extractor aborts
the whole scan. -/
def scan_all (env : ScanEnv) : Except PyErr Snapshot := do
  let cpu ← scan_cpu env
  let memory ← scan_memory env
  let gpus ← scan_gpus env
  let storage ← scan_storage env
  let network ← scan_network env
  .ok ⟨get_platform env, env.hostname, cpu, memory, gpus, storage, network,
    scan_ssh_keys env⟩

/-! ## Lemmas: the diff of equal line sequences is empty -/

/-- Bounds carried through the DP on equal sequences: every `j2len`
entry is at most `j+1` and at most the step bound. -/
def curBnd (m : Nat) (cur : Nat → Nat) : Prop := ∀ j, cur j ≤ j + 1 ∧ cur j ≤ m

/-- A character that may legitimately follow a serialized value:
nothing, or a separator the serializer itself emits. -/
def sepSafe : List Char → Prop
  | [] => True
  | c :: _ => c = ',' ∨ c = '\n' ∨ c = '\x7d' ∨ c = ']'

def joApp : JObj → JObj → JObj
  | .nil, t => t
  | .cons k v tl, t => .cons k v (joApp tl t)

/-- The character stream of a non-empty serialized array body, starting at
the first element's first character, with continuation `t` appended after
the last element. -/
def elemStreamT (lvl : Nat) : JArr → List Char → List Char
  | .nil, t => t
  | .cons x xs, t =>
    json_dumps_val x lvl ++
      (if jaIsNil xs then t else ',' :: '\n' :: (pad lvl ++ elemStreamT lvl xs t))

/-- The character stream of a non-empty serialized object body, starting
just after the first key's opening quote, with continuation `t` appended
after the last value. -/
def memStreamT (lvl : Nat) : JObj → List Char → List Char
  | .nil, t => t
  | .cons k v tl, t =>
    encCharsAux k.data ++ '"' :: ':' :: ' ' ::
      (json_dumps_val v lvl ++
        (if joIsNil tl then t else ',' :: '\n' :: (pad lvl ++ '"' :: memStreamT lvl tl t)))

/-- The document the updater reads back from the store: the parsed
context file, or `\x7b\x7d` when the file is absent or corrupt. -/
def storedDoc (st : FileState) : Json :=
  match st.contextFile with
  | some s =>
    match json_loads s with
    | some oj => oj
    | none => .obj .nil
  | none => .obj .nil

/-- The model string the lspci fallback extracts from a line. -/
def lspciModel (line : String) : String :=
  match reSearchColonBracket line.data with
  | some g => ⟨g⟩
  | none => "AMD GPU"

/-- An environment whose probes all raise `OSError` (e.g. the
`PermissionError` of a non-executable tool). -/
def envOsError : ScanEnv :=
  ⟨"Linux", "host", fun _ => .raised .osError, fun _ => false, false, []⟩

/-- An environment with one completing probe that exits non-zero with
padded output. -/
def envNonzeroExit : ScanEnv :=
  ⟨"Linux", "host", fun _ => .completed "  out  " 3, fun _ => false, false, []⟩

/-- A linux environment whose `/proc/meminfo` has a malformed
`MemTotal` value; every other probe completes empty. -/
def envBadMem : ScanEnv :=
  ⟨"Linux", "host",
    fun c => if c = .argv ["cat", "/proc/meminfo"]
      then .completed "MemTotal: banana kB" 0 else .completed "" 0,
    fun _ => false, false, []⟩

/-- A linux environment whose `lscpu` has a malformed `CPU(s):` value;
all other probes complete empty. -/
def envBadCpuLine : ScanEnv :=
  ⟨"Linux", "h",
    fun c => if c = .argv ["lscpu"]
      then .completed "Model name: X\nCPU(s): banana" 0 else .completed "" 0,
    fun _ => false, false, []⟩

theorem positionsFrom_sorted (x : Line) (l : List Line) (s : Nat) :
    (positionsFrom x l s).Pairwise (· < ·) ∧ ∀ j ∈ positionsFrom x l s, s ≤ j ∧ j < s + l.length := by
  induction l generalizing s with
  | nil => simp [positionsFrom]
  | cons y ys ih =>
    simp only [positionsFrom]
    by_cases h : y = x
    · simp only [if_pos h]
      refine ⟨List.Pairwise.cons ?_ (ih (s + 1)).1, ?_⟩
      · intro j hj
        have := (ih (s + 1)).2 j hj
        omega
      · intro j hj
        rcases List.mem_cons.mp hj with rfl | hj
        · simp
        · have := (ih (s + 1)).2 j hj
          simp only [List.length_cons]
          omega
    · simp only [if_neg h]
      refine ⟨(ih (s + 1)).1, ?_⟩
      intro j hj
      have := (ih (s + 1)).2 j hj
      simp only [List.length_cons]
      omega

theorem positionsFrom_mem_of (x : Line) (l : List Line) (s i : Nat)
    (hi : i < l.length) (hx : l.getD i [] = x) : (s + i) ∈ positionsFrom x l s := by
  induction l generalizing s i with
  | nil => simp at hi
  | cons y ys ih =>
    simp only [positionsFrom]
    cases i with
    | zero =>
      simp only [List.getD_cons_zero] at hx
      simp [hx]
    | succ i' =>
      simp only [List.getD_cons_succ] at hx
      simp only [List.length_cons] at hi
      have h2 := ih (s + 1) i' (by omega) hx
      have : s + (i' + 1) = (s + 1) + i' := by omega
      rw [this]
      by_cases h : y = x
      · simp only [if_pos h]
        exact List.mem_cons_of_mem _ h2
      · simp only [if_neg h]
        exact h2

theorem sorted_mem_split {i : Nat} {l : List Nat} (hs : l.Pairwise (· < ·)) (hi : i ∈ l) :
    ∃ A B, l = A ++ i :: B ∧ (∀ a ∈ A, a < i) ∧ (∀ b ∈ B, i < b) := by
  induction l with
  | nil => simp at hi
  | cons x xs ih =>
    rcases List.mem_cons.mp hi with rfl | hmem
    · exact ⟨[], xs, rfl, by simp, fun b hb => List.rel_of_pairwise_cons hs hb⟩
    · obtain ⟨A, B, hAB, hA, hB⟩ := ih (List.Pairwise.sublist (List.sublist_cons_self x xs) hs) hmem
      refine ⟨x :: A, B, by rw [hAB]; rfl, ?_, hB⟩
      intro a ha
      rcases List.mem_cons.mp ha with rfl | ha
      · exact List.rel_of_pairwise_cons hs (hAB ▸ List.mem_append_right A (List.mem_cons_self i B))
      · exact hA a ha

theorem flmInner_append (i blo bhi : Nat) (prev : Nat → Nat) (js1 js2 : List Nat)
    (cur : Nat → Nat) (best : FlmState) (h : ∀ j ∈ js1, j < bhi) :
    flmInner i blo bhi prev (js1 ++ js2) cur best =
      flmInner i blo bhi prev js2 (flmInner i blo bhi prev js1 cur best).1
        (flmInner i blo bhi prev js1 cur best).2 := by
  induction js1 generalizing cur best with
  | nil => simp [flmInner]
  | cons j js ih =>
    have hj : j < bhi := h j (List.mem_cons_self j js)
    have hrest : ∀ x ∈ js, x < bhi := fun x hx => h x (List.mem_cons_of_mem j hx)
    simp only [List.cons_append, flmInner]
    by_cases hlo : j < blo
    · simp only [if_pos hlo]
      exact ih _ _ hrest
    · simp only [if_neg hlo, if_neg (by omega : ¬ bhi ≤ j)]
      exact ih _ _ hrest


theorem flmInner_step_skip (i n j : Nat) (prev cur : Nat → Nat) (js : List Nat)
    (best : FlmState) (hb : ¬ n ≤ j) :
    flmInner i 0 n prev (j :: js) cur best =
      flmInner i 0 n prev js
        (fun j2 => if j2 = j then (if j = 0 then 0 else prev (j - 1)) + 1 else cur j2)
        (if best.bestsize < (if j = 0 then 0 else prev (j - 1)) + 1 then
          ⟨i + 1 - ((if j = 0 then 0 else prev (j - 1)) + 1),
           j + 1 - ((if j = 0 then 0 else prev (j - 1)) + 1),
           (if j = 0 then 0 else prev (j - 1)) + 1⟩
         else best) := by
  simp only [flmInner, if_neg (show ¬ j < 0 by omega), if_neg hb]

theorem flmInner_step_brk (i n j : Nat) (prev cur : Nat → Nat) (js : List Nat)
    (best : FlmState) (hb : n ≤ j) :
    flmInner i 0 n prev (j :: js) cur best = (cur, best) := by
  simp only [flmInner, if_neg (show ¬ j < 0 by omega), if_pos hb]

theorem flmInner_pre (i n : Nat) (prev : Nat → Nat) (hprev : curBnd i prev) :
    ∀ (js : List Nat) (cur : Nat → Nat),
    (∀ j ∈ js, j < i) → curBnd (i + 1) cur →
    (flmInner i 0 n prev js cur ⟨0, 0, i⟩).2 = ⟨0, 0, i⟩ ∧
    curBnd (i + 1) (flmInner i 0 n prev js cur ⟨0, 0, i⟩).1 ∧
    (flmInner i 0 n prev js cur ⟨0, 0, i⟩).1 i = cur i := by
  intro js
  induction js with
  | nil => intro cur _ hcur; exact ⟨rfl, hcur, rfl⟩
  | cons j js ih =>
    intro cur hjs hcur
    have hji : j < i := hjs j (List.mem_cons_self j js)
    by_cases hb : n ≤ j
    · rw [flmInner_step_brk i n j prev cur js _ hb]
      exact ⟨rfl, hcur, rfl⟩
    · have hk : ((if j = 0 then 0 else prev (j - 1)) + 1) ≤ i := by
        by_cases h0 : j = 0
        · simp only [if_pos h0]; omega
        · simp only [if_neg h0]
          have h1 := (hprev (j - 1)).1
          omega
      rw [flmInner_step_skip i n j prev cur js _ hb,
        if_neg (show ¬ (FlmState.mk 0 0 i).bestsize < (if j = 0 then 0 else prev (j - 1)) + 1 by
          simp only [FlmState.mk]; omega)]
      have hres := ih (fun j2 => if j2 = j then (if j = 0 then 0 else prev (j - 1)) + 1 else cur j2)
        (fun x hx => hjs x (List.mem_cons_of_mem j hx))
        (by
          intro j2
          by_cases h2 : j2 = j
          · simp only [if_pos h2]
            subst h2
            have h1 : (if j2 = 0 then 0 else prev (j2 - 1)) ≤ j2 := by
              by_cases h0 : j2 = 0
              · simp [h0]
              · simp only [if_neg h0]
                have := (hprev (j2 - 1)).1
                omega
            omega
          · simp only [if_neg h2]
            exact hcur j2)
      refine ⟨hres.1, hres.2.1, ?_⟩
      rw [hres.2.2]
      simp only [if_neg (show ¬ i = j by omega)]

theorem flmInner_post (i n : Nat) (prev : Nat → Nat) (hprev : curBnd i prev) :
    ∀ (js : List Nat) (cur : Nat → Nat),
    (∀ j ∈ js, i < j) → curBnd (i + 1) cur →
    (flmInner i 0 n prev js cur ⟨0, 0, i + 1⟩).2 = ⟨0, 0, i + 1⟩ ∧
    curBnd (i + 1) (flmInner i 0 n prev js cur ⟨0, 0, i + 1⟩).1 ∧
    (flmInner i 0 n prev js cur ⟨0, 0, i + 1⟩).1 i = cur i := by
  intro js
  induction js with
  | nil => intro cur _ hcur; exact ⟨rfl, hcur, rfl⟩
  | cons j js ih =>
    intro cur hjs hcur
    have hji : i < j := hjs j (List.mem_cons_self j js)
    by_cases hb : n ≤ j
    · rw [flmInner_step_brk i n j prev cur js _ hb]
      exact ⟨rfl, hcur, rfl⟩
    · have hk : ((if j = 0 then 0 else prev (j - 1)) + 1) ≤ i + 1 := by
        by_cases h0 : j = 0
        · omega
        · simp only [if_neg h0]
          have h2 := (hprev (j - 1)).2
          omega
      rw [flmInner_step_skip i n j prev cur js _ hb,
        if_neg (show ¬ (FlmState.mk 0 0 (i + 1)).bestsize < (if j = 0 then 0 else prev (j - 1)) + 1 by
          simp only [FlmState.mk]; omega)]
      have hres := ih (fun j2 => if j2 = j then (if j = 0 then 0 else prev (j - 1)) + 1 else cur j2)
        (fun x hx => hjs x (List.mem_cons_of_mem j hx))
        (by
          intro j2
          by_cases h2 : j2 = j
          · simp only [if_pos h2]
            subst h2
            constructor
            · have h1 : (if j2 = 0 then 0 else prev (j2 - 1)) ≤ j2 := by
                by_cases h0 : j2 = 0
                · simp [h0]
                · simp only [if_neg h0]
                  have := (hprev (j2 - 1)).1
                  omega
              omega
            · omega
          · simp only [if_neg h2]
            exact hcur j2)
      refine ⟨hres.1, hres.2.1, ?_⟩
      rw [hres.2.2]
      simp only [if_neg (show ¬ i = j by omega)]

theorem flmOuter_step (a : List Line) (n i : Nat) (hi : i < n) (hn : n = a.length)
    (j2len : Nat → Nat) (hb : curBnd i j2len) (hd : 1 ≤ i → j2len (i - 1) = i) :
    (flmInner i 0 n j2len (b2j a (a.getD i [])) (fun _ => 0) ⟨0, 0, i⟩).2 = ⟨0, 0, i + 1⟩ ∧
    curBnd (i + 1) (flmInner i 0 n j2len (b2j a (a.getD i [])) (fun _ => 0) ⟨0, 0, i⟩).1 ∧
    (flmInner i 0 n j2len (b2j a (a.getD i [])) (fun _ => 0) ⟨0, 0, i⟩).1 i = i + 1 := by
  have hia : i < a.length := hn ▸ hi
  have hsorted := (positionsFrom_sorted (a.getD i []) a 0).1
  have hbounds := (positionsFrom_sorted (a.getD i []) a 0).2
  have hmem : i ∈ positionsFrom (a.getD i []) a 0 := by
    have := positionsFrom_mem_of (a.getD i []) a 0 i hia rfl
    simpa using this
  obtain ⟨A, B, hAB, hA, hB⟩ := sorted_mem_split hsorted hmem
  have hj2 : b2j a (a.getD i []) = A ++ i :: B := by
    simp only [b2j, hAB]
  rw [hj2]
  have hAn : ∀ j ∈ A, j < n := by
    intro j hj
    have := hbounds j (hAB ▸ List.mem_append_left _ hj)
    omega
  rw [flmInner_append i 0 n j2len A (i :: B) _ _ hAn]
  have hpre := flmInner_pre i n j2len hb A (fun _ => 0) hA (fun j => by simp)
  rw [hpre.1]
  set cur1 := (flmInner i 0 n j2len A (fun _ => 0) ⟨0, 0, i⟩).1 with hcur1
  have hk : (if i = 0 then 0 else j2len (i - 1)) + 1 = i + 1 := by
    by_cases h0 : i = 0
    · simp [h0]
    · simp only [if_neg h0]
      rw [hd (by omega)]
  rw [flmInner_step_skip i n i j2len cur1 B _ (by omega), hk,
    if_pos (show (FlmState.mk 0 0 i).bestsize < i + 1 by simp only [FlmState.mk]; omega)]
  have hsub : i + 1 - (i + 1) = 0 := by omega
  rw [hsub]
  have hpost := flmInner_post i n j2len hb B
    (fun j2 => if j2 = i then i + 1 else cur1 j2) hB
    (by
      intro j
      by_cases h2 : j = i
      · simp only [if_pos h2]
        omega
      · simp only [if_neg h2]
        exact hpre.2.1 j)
  refine ⟨hpost.1, hpost.2.1, ?_⟩
  rw [hpost.2.2]
  simp

theorem flmOuter_self (a : List Line) (n : Nat) (hn : n = a.length) :
    ∀ (m i : Nat), i + m = n → ∀ (j2len : Nat → Nat) (best : FlmState),
    curBnd i j2len → (1 ≤ i → j2len (i - 1) = i) → best = ⟨0, 0, i⟩ →
    flmOuter a a 0 n (List.range' i m) j2len best = ⟨0, 0, n⟩ := by
  intro m
  induction m with
  | zero =>
    intro i hi j2len best _ _ hbest
    have h0 : List.range' i 0 = [] := rfl
    rw [h0]
    simp only [flmOuter]
    rw [hbest]
    have hin : i = n := by omega
    rw [hin]
  | succ m ih =>
    intro i hi j2len best hb hd hbest
    have hstep := flmOuter_step a n i (by omega) hn j2len hb hd
    have hr : List.range' i (m + 1) = i :: List.range' (i + 1) m := rfl
    rw [hr]
    simp only [flmOuter]
    rw [hbest]
    rw [hstep.1]
    exact ih (i + 1) (by omega) _ _ hstep.2.1
      (fun _ => by simpa using hstep.2.2) rfl

theorem extendLeft_zero (a b : List Line) (blo fuel : Nat) (st : FlmState)
    (h : st.besti = 0) : extendLeft a b 0 blo fuel st = st := by
  cases fuel with
  | zero => rfl
  | succ f =>
    simp only [extendLeft, h]
    rfl

theorem extendRight_stop (a b : List Line) (ahi bhi fuel : Nat) (st : FlmState)
    (h : ¬ (st.besti + st.bestsize < ahi)) : extendRight a b ahi bhi fuel st = st := by
  cases fuel with
  | zero => rfl
  | succ f =>
    simp only [extendRight]
    rw [if_neg]
    simp only [Bool.and_eq_true, decide_eq_true_eq, not_and]
    intro hlt
    omega

theorem find_longest_match_self (a : List Line) :
    find_longest_match a a 0 a.length 0 a.length = ⟨0, 0, a.length⟩ := by
  unfold find_longest_match
  have houter : flmOuter a a 0 a.length (List.range' 0 (a.length - 0)) (fun _ => 0) ⟨0, 0, 0⟩ =
      ⟨0, 0, a.length⟩ := by
    have := flmOuter_self a a.length rfl a.length 0 (by omega) (fun _ => 0)
      ⟨0, 0, 0⟩ (fun j => by simp) (by simp) rfl
    simpa using this
  rw [houter]
  show extendRight a a a.length a.length a.length
    (extendLeft a a 0 0 (FlmState.mk 0 0 a.length).besti ⟨0, 0, a.length⟩) =
    ⟨0, 0, a.length⟩
  have h1 : extendLeft a a 0 0 (FlmState.mk 0 0 a.length).besti ⟨0, 0, a.length⟩ =
      ⟨0, 0, a.length⟩ := rfl
  rw [h1]
  exact extendRight_stop a a a.length a.length a.length _ (by simp)

theorem gmbLoop_self (a : List Line) (f : Nat) :
    gmbLoop a a (f + 1 + 1) [(0, a.length, 0, a.length)] [] =
      if a.length = 0 then [] else [(0, 0, a.length)] := by
  by_cases h : a.length = 0
  · have hm := find_longest_match_self a
    rw [h] at hm
    simp [gmbLoop, hm, h]
  · have hm := find_longest_match_self a
    simp [gmbLoop, hm, h]

theorem get_matching_blocks_self (a : List Line) :
    get_matching_blocks a a =
      if a.length = 0 then [(0, 0, 0)] else [(0, 0, a.length), (a.length, a.length, 0)] := by
  show mergeAdjacent 0 0 0 (sortTriples
      (gmbLoop a a (2 * (a.length + a.length) + 4) [(0, a.length, 0, a.length)] [])) ++
      [(a.length, a.length, 0)] = _
  have hfuel : 2 * (a.length + a.length) + 4 = 2 * (a.length + a.length) + 2 + 1 + 1 := by
    omega
  rw [hfuel, gmbLoop_self]
  by_cases h : a.length = 0
  · simp [h, sortTriples, mergeAdjacent]
  · simp only [if_neg h]
    simp [sortTriples, insTriple, mergeAdjacent, h]

theorem get_opcodes_self (a : List Line) :
    get_opcodes a a =
      if a.length = 0 then [] else [⟨.equal, 0, a.length, 0, a.length⟩] := by
  unfold get_opcodes
  rw [get_matching_blocks_self]
  by_cases h : a.length = 0
  · simp [h, opcodesLoop]
  · simp only [if_neg h]
    simp [opcodesLoop, h]

theorem groupLoop_single_equal (n : Nat) (c : Opcode) (hc : c.tag = .equal)
    (hle : c.i2 - c.i1 ≤ n + n) : groupLoop n [] [c] = [] := by
  have hguard : (decide (c.tag = DTag.equal) && decide (n + n < c.i2 - c.i1)) = false := by
    simp only [Bool.and_eq_false_iff, decide_eq_false_iff_not]
    right
    omega
  simp only [groupLoop, hguard, Bool.false_eq_true, if_false, List.nil_append]
  simp [groupLoop, hc]

theorem get_grouped_opcodes_self (a : List Line) : get_grouped_opcodes a a 3 = [] := by
  show groupLoop 3 [] (modLast (trimLastOp 3) (modHead (trimHeadOp 3)
    (if get_opcodes a a = [] then [⟨.equal, 0, 1, 0, 1⟩] else get_opcodes a a))) = []
  rw [get_opcodes_self]
  by_cases h : a.length = 0
  · rw [if_pos h, if_pos rfl]
    rfl
  · rw [if_neg h, if_neg (by simp)]
    have e1 : modHead (trimHeadOp 3) [(⟨.equal, 0, a.length, 0, a.length⟩ : Opcode)] =
        [⟨.equal, max 0 (a.length - 3), a.length, max 0 (a.length - 3), a.length⟩] := by
      simp [modHead, trimHeadOp]
    have e2 : modLast (trimLastOp 3)
        [(⟨.equal, max 0 (a.length - 3), a.length,
           max 0 (a.length - 3), a.length⟩ : Opcode)] =
        [⟨.equal, max 0 (a.length - 3), min a.length (max 0 (a.length - 3) + 3),
          max 0 (a.length - 3), min a.length (max 0 (a.length - 3) + 3)⟩] := by
      simp [modLast, trimLastOp]
    rw [e1, e2]
    apply groupLoop_single_equal
    · rfl
    · show min a.length (max 0 (a.length - 3) + 3) - max 0 (a.length - 3) ≤ 3 + 3
      rcases Nat.le_total a.length (max 0 (a.length - 3) + 3) with h4 | h4
      · rw [Nat.min_eq_left h4]
        omega
      · rw [Nat.min_eq_right h4]
        omega

theorem unified_diff_self (a : List Line) (ff tf lt : List Char) :
    unified_diff a a ff tf lt = [] := by
  unfold unified_diff
  rw [get_grouped_opcodes_self]

/-! ## Lemmas: `json_loads` inverts `json.dumps` -/

theorem digitsToNat_append (acc : Nat) (xs ys : List Char) :
    digitsToNat acc (xs ++ ys) = digitsToNat (digitsToNat acc xs) ys := by
  induction xs generalizing acc with
  | nil => rfl
  | cons c cs ih =>
    rw [List.cons_append]
    have h1 : digitsToNat acc (c :: (cs ++ ys)) =
        digitsToNat (acc * 10 + digitVal c) (cs ++ ys) := rfl
    have h2 : digitsToNat acc (c :: cs) = digitsToNat (acc * 10 + digitVal c) cs := rfl
    rw [h1, h2, ih]

theorem digitVal_digChar (d : Nat) (h : d < 10) : digitVal (digChar d) = d := by
  interval_cases d <;> decide

theorem isDigit_digChar (d : Nat) (h : d < 10) : isDigitChar (digChar d) = true := by
  interval_cases d <;> decide

theorem natDigitsAux_spec (f : Nat) :
    ∀ n, n < f →
      natDigitsAux f n ≠ [] ∧ (natDigitsAux f n).all isDigitChar = true ∧
      digitsToNat 0 (natDigitsAux f n) = n ∧
      (n ≠ 0 → (natDigitsAux f n).headD ' ' ≠ '0') ∧
      (n = 0 → natDigitsAux f n = ['0']) := by
  induction f with
  | zero => intro n hn; omega
  | succ f ih =>
    intro n hn
    by_cases h10 : n < 10
    · simp only [natDigitsAux, if_pos h10]
      refine ⟨by simp, by simp [isDigit_digChar n h10], ?_, ?_, ?_⟩
      · have h1 : digitsToNat 0 [digChar n] = 0 * 10 + digitVal (digChar n) := rfl
        rw [h1, digitVal_digChar n h10]
        omega
      · intro hne hc
        have hc2 : digChar n = '0' := hc
        have h2 : digitVal (digChar n) = digitVal '0' := by rw [hc2]
        rw [digitVal_digChar n h10] at h2
        have h3 : digitVal '0' = 0 := rfl
        omega
      · intro h0
        subst h0
        rfl
    · simp only [natDigitsAux, if_neg h10]
      have hlt : n / 10 < f := by omega
      obtain ⟨hne, hall, hval, hhead, _⟩ := ih (n / 10) hlt
      refine ⟨by simp, ?_, ?_, ?_, by omega⟩
      · rw [List.all_append, hall]
        rw [Bool.true_and]
        have h4 : ([digChar (n % 10)].all isDigitChar) = isDigitChar (digChar (n % 10)) := by
          rw [List.all_cons, List.all_nil, Bool.and_true]
        rw [h4]
        exact isDigit_digChar _ (by omega)
      · rw [digitsToNat_append, hval]
        have h2 : digitsToNat (n / 10) [digChar (n % 10)] =
            (n / 10) * 10 + digitVal (digChar (n % 10)) := rfl
        rw [h2, digitVal_digChar (n % 10) (by omega)]
        omega
      · intro _
        cases he : natDigitsAux f (n / 10) with
        | nil => exact absurd he hne
        | cons c cs =>
          have hres : ((c :: cs) ++ [digChar (n % 10)]).headD ' ' = c := rfl
          rw [hres]
          have h5 := hhead (by omega)
          rw [he] at h5
          exact h5

theorem natDigits_spec (n : Nat) :
    natDigits n ≠ [] ∧ (natDigits n).all isDigitChar = true ∧
    digitsToNat 0 (natDigits n) = n ∧
    (n ≠ 0 → (natDigits n).headD ' ' ≠ '0') ∧
    (n = 0 → natDigits n = ['0']) :=
  natDigitsAux_spec (n + 1) n (by omega)

theorem takeDigits_spec (ds rest : List Char) (hall : ds.all isDigitChar = true)
    (hrest : isDigitChar (rest.headD ' ') = false) :
    takeDigits (ds ++ rest) = (ds, rest) := by
  induction ds with
  | nil =>
    cases rest with
    | nil => rfl
    | cons c cs =>
      simp only [List.headD] at hrest
      simp [takeDigits, hrest]
  | cons c cs ih =>
    simp only [List.all_cons, Bool.and_eq_true] at hall
    simp only [List.cons_append, takeDigits, hall.1, if_pos]
    simp [ih hall.2]

theorem sepSafe_not_digit {rest : List Char} (h : sepSafe rest) :
    isDigitChar (rest.headD ' ') = false := by
  cases rest with
  | nil => rfl
  | cons c cs =>
    simp only [sepSafe] at h
    rcases h with rfl | rfl | rfl | rfl <;> rfl

theorem sepSafe_not_float {rest : List Char} (h : sepSafe rest) :
    floatPartNext rest = false := by
  cases rest with
  | nil => rfl
  | cons c cs =>
    simp only [sepSafe] at h
    rcases h with rfl | rfl | rfl | rfl <;> (cases cs <;> rfl)

theorem parseIntPartCore_digits (m : Nat) (rest : List Char)
    (hrest : isDigitChar (rest.headD ' ') = false) :
    parseIntPartCore (natDigits m ++ rest) = some (m, rest) := by
  obtain ⟨hne, hall, hval, hhead, hzero⟩ := natDigits_spec m
  by_cases hm : m = 0
  · subst hm
    rw [hzero rfl]
    rfl
  · cases he : natDigits m with
    | nil => exact absurd he hne
    | cons c cs =>
      rw [he] at hall hval hhead
      simp only [List.all_cons, Bool.and_eq_true] at hall
      have hc0 : c ≠ '0' := by simpa using hhead hm
      simp only [List.cons_append, parseIntPartCore, if_neg hc0, hall.1, if_pos]
      rw [takeDigits_spec cs rest hall.2 hrest]
      have hstep : digitsToNat 0 (c :: cs) = digitsToNat (digitVal c) cs := by
        have h2 : digitsToNat 0 (c :: cs) = digitsToNat (0 * 10 + digitVal c) cs := rfl
        rw [h2]
        norm_num
      rw [hstep] at hval
      simp [hval]

theorem parseNumber_intRepr (n : Int) (rest : List Char) (hrest : sepSafe rest) :
    parseNumber (intRepr n ++ rest) = some (n, rest) := by
  have hd := sepSafe_not_digit hrest
  unfold parseNumber
  have hcore : parseIntPart (intRepr n ++ rest) = some (n, rest) := by
    unfold intRepr
    by_cases hn : n < 0
    · rw [if_pos hn]
      simp only [List.cons_append, parseIntPart, if_pos rfl]
      rw [parseIntPartCore_digits n.natAbs rest hd]
      show some (-((n.natAbs : Nat) : Int), rest) = some (n, rest)
      have hna : -((n.natAbs : Nat) : Int) = n := by omega
      rw [hna]
    · rw [if_neg hn]
      obtain ⟨hne, hall, _, _, _⟩ := natDigits_spec n.natAbs
      cases he : natDigits n.natAbs with
      | nil => exact absurd he hne
      | cons c cs =>
        rw [he] at hall
        simp only [List.all_cons, Bool.and_eq_true] at hall
        have hcm : c ≠ '-' := by
          intro hcc
          rw [hcc] at hall
          simpa [isDigitChar] using hall.1
        simp only [List.cons_append, parseIntPart, if_neg hcm]
        rw [← List.cons_append, ← he, parseIntPartCore_digits n.natAbs rest hd]
        show some (((n.natAbs : Nat) : Int), rest) = some (n, rest)
        have hna : ((n.natAbs : Nat) : Int) = n := by omega
        rw [hna]
  rw [hcore]
  show (if floatPartNext rest = true then none else some (n, rest)) = some (n, rest)
  rw [sepSafe_not_float hrest]
  simp

theorem hexVal_hexChar (d : Nat) (h : d < 16) : hexVal (hexChar d) = some d := by
  interval_cases d <;> decide

theorem hex4_toHex4 (u : Nat) (h : u < 0x10000) :
    hex4 (hexChar (u / 4096 % 16)) (hexChar (u / 256 % 16))
      (hexChar (u / 16 % 16)) (hexChar (u % 16)) = some u := by
  have e1 := hexVal_hexChar (u / 4096 % 16) (by omega)
  have e2 := hexVal_hexChar (u / 256 % 16) (by omega)
  have e3 := hexVal_hexChar (u / 16 % 16) (by omega)
  have e4 := hexVal_hexChar (u % 16) (by omega)
  simp only [hex4, e1, e2, e3, e4]
  congr 1
  omega

theorem char_valid_nat (c : Char) :
    c.toNat < 0xd800 ∨ (0xdfff < c.toNat ∧ c.toNat < 0x110000) := c.valid


theorem psb_quote (rest : List Char) : parseStringBody ('"' :: rest) = some ([], rest) := by
  simp [parseStringBody]

theorem psb_esc (e d : Char) (tail : List Char) (he : escMap e = some d) (hu : e ≠ 'u') :
    parseStringBody ('\\' :: e :: tail) =
      (parseStringBody tail).map (fun p => (d :: p.1, p.2)) := by
  simp only [parseStringBody, psbEscape]
  rw [if_pos trivial, if_neg hu, he]
  rfl

theorem psb_lit (c : Char) (tail : List Char) (h1 : c ≠ '"') (h2 : c ≠ '\\')
    (h3 : ¬ c.toNat < 0x20) :
    parseStringBody (c :: tail) = (parseStringBody tail).map (fun p => (c :: p.1, p.2)) := by
  simp only [parseStringBody]
  rw [if_neg h1, if_neg h2, if_neg h3]

theorem psb_u (x1 x2 x3 x4 : Char) (u : Nat) (tail : List Char)
    (hhex : hex4 x1 x2 x3 x4 = some u) (hval : u < 0xd800 ∨ 0xdfff < u) :
    parseStringBody ('\\' :: 'u' :: x1 :: x2 :: x3 :: x4 :: tail) =
      (parseStringBody tail).map (fun p => (Char.ofNat u :: p.1, p.2)) := by
  have s1 : parseStringBody ('\\' :: 'u' :: x1 :: x2 :: x3 :: x4 :: tail) =
      psbEscape ('u' :: x1 :: x2 :: x3 :: x4 :: tail) := by
    simp only [parseStringBody]
    rw [if_pos trivial]
    rw [if_neg (by decide : ¬ ('\\' : Char) = '"')]
  have s2 : psbEscape ('u' :: x1 :: x2 :: x3 :: x4 :: tail) =
      psbHex (x1 :: x2 :: x3 :: x4 :: tail) := by
    simp only [psbEscape]
    rw [if_pos trivial]
  rw [s1, s2]
  simp only [psbHex, hhex, Option.some_bind]
  rw [if_neg (by
    simp only [Bool.and_eq_true, decide_eq_true_eq, not_and, not_le]
    omega)]
  rw [if_neg (by
    simp only [Bool.and_eq_true, decide_eq_true_eq, not_and, not_le]
    omega)]

theorem psb_pair (x1 x2 x3 x4 y1 y2 y3 y4 : Char) (u1 u2 : Nat) (tail : List Char)
    (hhex1 : hex4 x1 x2 x3 x4 = some u1) (h1 : 0xd800 ≤ u1 ∧ u1 ≤ 0xdbff)
    (hhex2 : hex4 y1 y2 y3 y4 = some u2) (h2 : 0xdc00 ≤ u2 ∧ u2 ≤ 0xdfff) :
    parseStringBody ('\\' :: 'u' :: x1 :: x2 :: x3 :: x4 ::
        '\\' :: 'u' :: y1 :: y2 :: y3 :: y4 :: tail) =
      (parseStringBody tail).map (fun p =>
        (Char.ofNat (0x10000 + (u1 - 0xd800) * 0x400 + (u2 - 0xdc00)) :: p.1, p.2)) := by
  have s1 : parseStringBody ('\\' :: 'u' :: x1 :: x2 :: x3 :: x4 ::
      '\\' :: 'u' :: y1 :: y2 :: y3 :: y4 :: tail) =
      psbEscape ('u' :: x1 :: x2 :: x3 :: x4 :: '\\' :: 'u' :: y1 :: y2 :: y3 :: y4 :: tail) := by
    simp only [parseStringBody]
    rw [if_pos trivial]
    rw [if_neg (by decide : ¬ ('\\' : Char) = '"')]
  have s2 : psbEscape ('u' :: x1 :: x2 :: x3 :: x4 ::
      '\\' :: 'u' :: y1 :: y2 :: y3 :: y4 :: tail) =
      psbHex (x1 :: x2 :: x3 :: x4 :: '\\' :: 'u' :: y1 :: y2 :: y3 :: y4 :: tail) := by
    simp only [psbEscape]
    rw [if_pos trivial]
  rw [s1, s2]
  simp only [psbHex, hhex1, Option.some_bind]
  rw [if_pos (by
    simp only [Bool.and_eq_true, decide_eq_true_eq]
    omega)]
  simp only [psbPair]
  rw [if_pos (by decide), hhex2]
  simp only [Option.some_bind]
  rw [if_pos (by
    simp only [Bool.and_eq_true, decide_eq_true_eq]
    omega)]

theorem parseStringBody_enc (s : List Char) (rest : List Char) :
    parseStringBody (encCharsAux s ++ '"' :: rest) = some (s, rest) := by
  induction s with
  | nil => exact psb_quote rest
  | cons c cs ih =>
    rw [show encCharsAux (c :: cs) = encChar c ++ encCharsAux cs from rfl, List.append_assoc]
    unfold encChar
    by_cases h1 : c = '"'
    · rw [if_pos h1, show (['\\', '"'] : List Char) ++ (encCharsAux cs ++ '"' :: rest) =
        '\\' :: '"' :: (encCharsAux cs ++ '"' :: rest) from rfl,
        psb_esc '"' '"' _ rfl (by decide), ih, h1]
      rfl
    · rw [if_neg h1]
      by_cases h2 : c = '\\'
      · rw [if_pos h2, show (['\\', '\\'] : List Char) ++ (encCharsAux cs ++ '"' :: rest) =
          '\\' :: '\\' :: (encCharsAux cs ++ '"' :: rest) from rfl,
          psb_esc '\\' '\\' _ rfl (by decide), ih, h2]
        rfl
      · rw [if_neg h2]
        by_cases h3 : c = '\x08'
        · rw [if_pos h3, show (['\\', 'b'] : List Char) ++ (encCharsAux cs ++ '"' :: rest) =
            '\\' :: 'b' :: (encCharsAux cs ++ '"' :: rest) from rfl,
            psb_esc 'b' '\x08' _ rfl (by decide), ih, h3]
          rfl
        · rw [if_neg h3]
          by_cases h4 : c = '\x0c'
          · rw [if_pos h4, show (['\\', 'f'] : List Char) ++ (encCharsAux cs ++ '"' :: rest) =
              '\\' :: 'f' :: (encCharsAux cs ++ '"' :: rest) from rfl,
              psb_esc 'f' '\x0c' _ rfl (by decide), ih, h4]
            rfl
          · rw [if_neg h4]
            by_cases h5 : c = '\n'
            · rw [if_pos h5, show (['\\', 'n'] : List Char) ++ (encCharsAux cs ++ '"' :: rest) =
                '\\' :: 'n' :: (encCharsAux cs ++ '"' :: rest) from rfl,
                psb_esc 'n' '\n' _ rfl (by decide), ih, h5]
              rfl
            · rw [if_neg h5]
              by_cases h6 : c = '\r'
              · rw [if_pos h6, show (['\\', 'r'] : List Char) ++ (encCharsAux cs ++ '"' :: rest) =
                  '\\' :: 'r' :: (encCharsAux cs ++ '"' :: rest) from rfl,
                  psb_esc 'r' '\r' _ rfl (by decide), ih, h6]
                rfl
              · rw [if_neg h6]
                by_cases h7 : c = '\t'
                · rw [if_pos h7, show (['\\', 't'] : List Char) ++ (encCharsAux cs ++ '"' :: rest) =
                    '\\' :: 't' :: (encCharsAux cs ++ '"' :: rest) from rfl,
                    psb_esc 't' '\t' _ rfl (by decide), ih, h7]
                  rfl
                · rw [if_neg h7]
                  by_cases h8 : 0x20 ≤ c.toNat && c.toNat ≤ 0x7e
                  · rw [if_pos h8]
                    simp only [Bool.and_eq_true, decide_eq_true_eq] at h8
                    rw [show ([c] : List Char) ++ (encCharsAux cs ++ '"' :: rest) =
                      c :: (encCharsAux cs ++ '"' :: rest) from rfl,
                      psb_lit c _ h1 h2 (by omega), ih]
                    rfl
                  · rw [if_neg h8]
                    simp only [Bool.and_eq_true, decide_eq_true_eq, not_and, not_le] at h8
                    have hval := char_valid_nat c
                    by_cases h9 : c.toNat < 0x10000
                    · rw [if_pos h9]
                      rw [show ('\\' :: 'u' :: toHex4 c.toNat) ++ (encCharsAux cs ++ '"' :: rest) =
                        '\\' :: 'u' :: hexChar (c.toNat / 4096 % 16) ::
                        hexChar (c.toNat / 256 % 16) :: hexChar (c.toNat / 16 % 16) ::
                        hexChar (c.toNat % 16) :: (encCharsAux cs ++ '"' :: rest) from rfl,
                        psb_u _ _ _ _ c.toNat _ (hex4_toHex4 c.toNat h9) (by omega), ih,
                        Char.ofNat_toNat]
                      rfl
                    · rw [if_neg h9]
                      have hm : c.toNat - 0x10000 < 0x100000 := by omega
                      rw [show (('\\' :: 'u' :: toHex4 (0xd800 + (c.toNat - 0x10000) / 0x400)) ++
                          ('\\' :: 'u' :: toHex4 (0xdc00 + (c.toNat - 0x10000) % 0x400))) ++
                          (encCharsAux cs ++ '"' :: rest) =
                        '\\' :: 'u' ::
                          hexChar ((0xd800 + (c.toNat - 0x10000) / 0x400) / 4096 % 16) ::
                          hexChar ((0xd800 + (c.toNat - 0x10000) / 0x400) / 256 % 16) ::
                          hexChar ((0xd800 + (c.toNat - 0x10000) / 0x400) / 16 % 16) ::
                          hexChar ((0xd800 + (c.toNat - 0x10000) / 0x400) % 16) ::
                        '\\' :: 'u' ::
                          hexChar ((0xdc00 + (c.toNat - 0x10000) % 0x400) / 4096 % 16) ::
                          hexChar ((0xdc00 + (c.toNat - 0x10000) % 0x400) / 256 % 16) ::
                          hexChar ((0xdc00 + (c.toNat - 0x10000) % 0x400) / 16 % 16) ::
                          hexChar ((0xdc00 + (c.toNat - 0x10000) % 0x400) % 16) ::
                          (encCharsAux cs ++ '"' :: rest) from rfl,
                        psb_pair _ _ _ _ _ _ _ _
                          (0xd800 + (c.toNat - 0x10000) / 0x400)
                          (0xdc00 + (c.toNat - 0x10000) % 0x400) _
                          (hex4_toHex4 _ (by omega)) (by omega)
                          (hex4_toHex4 _ (by omega)) (by omega), ih]
                      have hcomb : 0x10000 +
                          (0xd800 + (c.toNat - 0x10000) / 0x400 - 0xd800) * 0x400 +
                          (0xdc00 + (c.toNat - 0x10000) % 0x400 - 0xdc00) = c.toNat := by
                        omega
                      rw [hcomb, Char.ofNat_toNat]
                      rfl

theorem skipWs_ws_append (w r : List Char) (h : ∀ c ∈ w, jsonWs c = true) :
    skipWs (w ++ r) = skipWs r := by
  induction w with
  | nil => rfl
  | cons c cs ih =>
    simp only [List.cons_append, skipWs, h c (List.mem_cons_self c cs)]
    exact ih (fun x hx => h x (List.mem_cons_of_mem c hx))

theorem skipWs_pad (lvl : Nat) (r : List Char) : skipWs (pad lvl ++ r) = skipWs r := by
  apply skipWs_ws_append
  intro c hc
  have := List.eq_of_mem_replicate hc
  subst this
  rfl

theorem skipWs_nl (r : List Char) : skipWs ('\n' :: r) = skipWs r := by
  simp [skipWs, jsonWs]

theorem skipWs_sp (r : List Char) : skipWs (' ' :: r) = skipWs r := by
  simp [skipWs, jsonWs]

theorem skipWs_nonws (c : Char) (r : List Char) (h : jsonWs c = false) :
    skipWs (c :: r) = c :: r := by
  simp [skipWs, h]

theorem digit_facts (c : Char) (h : isDigitChar c = true) :
    jsonWs c = false ∧ c ≠ ']' ∧ c ≠ '\x7d' := by
  simp only [isDigitChar, Bool.and_eq_true, decide_eq_true_eq] at h
  refine ⟨?_, ?_, ?_⟩
  · simp only [jsonWs, Bool.or_eq_false_iff, decide_eq_false_iff_not]
    refine ⟨⟨⟨?_, ?_⟩, ?_⟩, ?_⟩ <;> (intro heq; subst heq; revert h; decide)
  · intro heq; subst heq; revert h; decide
  · intro heq; subst heq; revert h; decide

/-- The first character of a serialized value: never whitespace, never a
closing bracket. -/
theorem dumps_head (v : Json) (lvl : Nat) :
    ∃ c cs, json_dumps_val v lvl = c :: cs ∧ jsonWs c = false ∧ c ≠ ']' ∧ c ≠ '\x7d' := by
  cases v with
  | null => exact ⟨'n', _, rfl, by refine ⟨?_, ?_, ?_⟩ <;> decide⟩
  | bool b =>
    cases b with
    | true => exact ⟨'t', _, rfl, by refine ⟨?_, ?_, ?_⟩ <;> decide⟩
    | false => exact ⟨'f', _, rfl, by refine ⟨?_, ?_, ?_⟩ <;> decide⟩
  | num n =>
    show ∃ c cs, intRepr n = c :: cs ∧ _
    unfold intRepr
    by_cases hn : n < 0
    · rw [if_pos hn]
      exact ⟨'-', _, rfl, by refine ⟨?_, ?_, ?_⟩ <;> decide⟩
    · rw [if_neg hn]
      obtain ⟨hne, hall, _, _, _⟩ := natDigits_spec n.natAbs
      cases he : natDigits n.natAbs with
      | nil => exact absurd he hne
      | cons c cs =>
        rw [he] at hall
        simp only [List.all_cons, Bool.and_eq_true] at hall
        obtain ⟨hw, hb, hb2⟩ := digit_facts c hall.1
        exact ⟨c, cs, rfl, hw, hb, hb2⟩
  | str s => exact ⟨'"', _, rfl, by refine ⟨?_, ?_, ?_⟩ <;> decide⟩
  | arr l =>
    cases l with
    | nil => exact ⟨'[', _, rfl, by refine ⟨?_, ?_, ?_⟩ <;> decide⟩
    | cons x xs => exact ⟨'[', _, rfl, by refine ⟨?_, ?_, ?_⟩ <;> decide⟩
  | obj l =>
    cases l with
    | nil => exact ⟨'\x7b', _, rfl, by refine ⟨?_, ?_, ?_⟩ <;> decide⟩
    | cons k v tl => exact ⟨'\x7b', _, rfl, by refine ⟨?_, ?_, ?_⟩ <;> decide⟩

theorem keyMem_joApp (q : String) : ∀ (a b : JObj),
    keyMem q (joApp a b) = (keyMem q a || keyMem q b)
  | .nil, b => by simp [joApp, keyMem]
  | .cons k v tl, b => by
    simp [joApp, keyMem, keyMem_joApp q tl b, Bool.or_assoc]

theorem joApp_nil : ∀ a : JObj, joApp a .nil = a
  | .nil => rfl
  | .cons k v tl => by simp [joApp, joApp_nil tl]

theorem joApp_assoc : ∀ (a b c : JObj), joApp (joApp a b) c = joApp a (joApp b c)
  | .nil, _, _ => rfl
  | .cons k v tl, b, c => by simp [joApp, joApp_assoc tl b c]

theorem setItem_absent (k : String) (v : Json) : ∀ (acc : JObj),
    keyMem k acc = false → setItem k v acc = joApp acc (.cons k v .nil)
  | .nil, _ => rfl
  | .cons k' v' tl, h => by
    simp only [keyMem, Bool.or_eq_false_iff, decide_eq_false_iff_not] at h
    simp only [setItem, joApp]
    rw [if_neg (by intro he; exact h.1 he)]
    rw [setItem_absent k v tl h.2]

theorem dictAdd_disjoint : ∀ (ms acc : JObj),
    (∀ q, keyMem q ms = true → keyMem q acc = false) → keysNodup ms = true →
    dictAdd acc ms = joApp acc ms
  | .nil, acc, _, _ => (joApp_nil acc).symm
  | .cons k v tl, acc, hdisj, hnd => by
    simp only [keysNodup, Bool.and_eq_true, Bool.not_eq_true'] at hnd
    have hk : keyMem k acc = false := hdisj k (by simp [keyMem])
    simp only [dictAdd]
    rw [setItem_absent k v acc hk]
    rw [dictAdd_disjoint tl (joApp acc (.cons k v .nil)) ?_ hnd.2]
    · rw [joApp_assoc]
      rfl
    · intro q hq
      rw [keyMem_joApp]
      simp only [Bool.or_eq_false_iff]
      constructor
      · exact hdisj q (by simp [keyMem, hq])
      · simp only [keyMem, Bool.or_eq_false_iff]
        refine ⟨?_, by trivial⟩
        simp only [decide_eq_false_iff_not]
        intro he
        rw [he] at hq
        rw [hq] at hnd
        exact absurd hnd.1 (by simp)

/-- `dict(pairs)` is the identity on duplicate-free member lists. -/
theorem dictOf_nodup_id (ms : JObj) (h : keysNodup ms = true) : dictOf ms = ms := by
  unfold dictOf
  rw [dictAdd_disjoint ms .nil (fun q _ => rfl) h]
  rfl

theorem dumpsElems_stream : ∀ (l : JArr) (lvl : Nat) (t : List Char), jaIsNil l = false →
    dumpsElems l lvl ++ t = pad lvl ++ elemStreamT lvl l t
  | .nil, _, _, h => absurd h (by simp [jaIsNil])
  | .cons x xs, lvl, t, _ => by
    cases xs with
    | nil => simp [dumpsElems, elemStreamT, jaIsNil]
    | cons y ys =>
      have ih := dumpsElems_stream (.cons y ys) lvl t (by simp [jaIsNil])
      have h1 : dumpsElems (.cons x (.cons y ys)) lvl
          = pad lvl ++ json_dumps_val x lvl ++
            (',' :: '\n' :: dumpsElems (.cons y ys) lvl) := rfl
      have h2 : elemStreamT lvl (.cons x (.cons y ys)) t
          = json_dumps_val x lvl ++
            (',' :: '\n' :: (pad lvl ++ elemStreamT lvl (.cons y ys) t)) := rfl
      rw [h1, h2, List.append_assoc, List.append_assoc, List.cons_append,
        List.cons_append, ih]

theorem dumpsMems_stream : ∀ (l : JObj) (lvl : Nat) (t : List Char), joIsNil l = false →
    dumpsMems l lvl ++ t = pad lvl ++ '"' :: memStreamT lvl l t
  | .nil, _, _, h => absurd h (by simp [joIsNil])
  | .cons k v tl, lvl, t, _ => by
    cases tl with
    | nil => simp [dumpsMems, memStreamT, encStr, joIsNil]
    | cons k2 v2 tl2 =>
      have ih := dumpsMems_stream (.cons k2 v2 tl2) lvl t (by simp [joIsNil])
      have h1 : dumpsMems (.cons k v (.cons k2 v2 tl2)) lvl
          = pad lvl ++ ('"' :: encCharsAux k.data ++ ['"']) ++ ':' :: ' ' ::
            json_dumps_val v lvl ++
            (',' :: '\n' :: dumpsMems (.cons k2 v2 tl2) lvl) := rfl
      have h2 : memStreamT lvl (.cons k v (.cons k2 v2 tl2)) t
          = encCharsAux k.data ++ '"' :: ':' :: ' ' ::
            (json_dumps_val v lvl ++
              (',' :: '\n' ::
                (pad lvl ++ '"' :: memStreamT lvl (.cons k2 v2 tl2) t))) := rfl
      rw [h1, h2]
      simp only [List.append_assoc, List.cons_append, List.nil_append]
      rw [ih]

theorem intRepr_head (n : Int) :
    ∃ c cs, intRepr n = c :: cs ∧ (c = '-' ∨ isDigitChar c = true) := by
  unfold intRepr
  by_cases hn : n < 0
  · rw [if_pos hn]
    exact ⟨'-', _, rfl, Or.inl rfl⟩
  · rw [if_neg hn]
    obtain ⟨hne, hall, _, _, _⟩ := natDigits_spec n.natAbs
    cases he : natDigits n.natAbs with
    | nil => exact absurd he hne
    | cons c cs =>
      rw [he] at hall
      simp only [List.all_cons, Bool.and_eq_true] at hall
      exact ⟨c, cs, rfl, Or.inr hall.1⟩

theorem numHead_ne (c : Char) (h : c = '-' ∨ isDigitChar c = true) :
    c ≠ '"' ∧ c ≠ '\x7b' ∧ c ≠ '[' ∧ c ≠ 'n' ∧ c ≠ 't' ∧ c ≠ 'f' := by
  rcases h with rfl | h
  · refine ⟨?_, ?_, ?_, ?_, ?_, ?_⟩ <;> decide
  · simp only [isDigitChar, Bool.and_eq_true, decide_eq_true_eq] at h
    refine ⟨?_, ?_, ?_, ?_, ?_, ?_⟩ <;> (intro he; subst he; revert h; decide)

theorem listStartsWith_head_ne {a b : Char} (ps xs : List Char) (h : a ≠ b) :
    listStartsWith (a :: ps) (b :: xs) = false := by
  simp [listStartsWith, h]

theorem skipWs_dumps (v : Json) (lvl : Nat) (t : List Char) :
    skipWs (json_dumps_val v lvl ++ t) = json_dumps_val v lvl ++ t := by
  obtain ⟨c, cs, hd, hws, _, _⟩ := dumps_head v lvl
  rw [hd]
  show skipWs (c :: (cs ++ t)) = _
  rw [skipWs_nonws c _ hws]
  rfl

theorem elemStreamT_head (lvl : Nat) (x : Json) (xs : JArr) (t : List Char) :
    ∃ c cs, elemStreamT lvl (.cons x xs) t = c :: cs ∧
      jsonWs c = false ∧ c ≠ ']' ∧ c ≠ '\x7d' := by
  obtain ⟨c, cs, hd, hws, hb, hb2⟩ := dumps_head x lvl
  refine ⟨c, cs ++ (if jaIsNil xs then t else ',' :: '\n' :: (pad lvl ++ elemStreamT lvl xs t)),
    ?_, hws, hb, hb2⟩
  show json_dumps_val x lvl ++ _ = _
  rw [hd, List.cons_append]

theorem sepSafe_nl (l : List Char) : sepSafe ('\n' :: l) := by
  simp [sepSafe]

theorem sepSafe_comma (l : List Char) : sepSafe (',' :: l) := by
  simp [sepSafe]

theorem skipWs_elemStreamT (lvl : Nat) (x : Json) (xs : JArr) (t : List Char) :
    skipWs (elemStreamT lvl (.cons x xs) t) = elemStreamT lvl (.cons x xs) t := by
  show skipWs (json_dumps_val x lvl ++ _) = _
  exact skipWs_dumps x lvl _

mutual
/-- `_scan_once` reads back exactly the value that
`json.dumps(·, indent=2)` serialized, leaving the continuation intact. -/
theorem parseValue_dumps : ∀ (v : Json) (f lvl : Nat) (rest : List Char),
    wfJ v = true → jSize v ≤ f → sepSafe rest →
    parseValue f (json_dumps_val v lvl ++ rest) = some (v, rest)
  | .null, f, _, rest, _, hf, _ => by
    obtain ⟨f', rfl⟩ : ∃ f', f = f' + 1 := ⟨f - 1, by simp [jSize] at hf; omega⟩
    rfl
  | .bool true, f, _, rest, _, hf, _ => by
    obtain ⟨f', rfl⟩ : ∃ f', f = f' + 1 := ⟨f - 1, by simp [jSize] at hf; omega⟩
    rfl
  | .bool false, f, _, rest, _, hf, _ => by
    obtain ⟨f', rfl⟩ : ∃ f', f = f' + 1 := ⟨f - 1, by simp [jSize] at hf; omega⟩
    rfl
  | .num n, f, _, rest, _, hf, hsep => by
    obtain ⟨f', rfl⟩ : ∃ f', f = f' + 1 := ⟨f - 1, by simp [jSize] at hf; omega⟩
    obtain ⟨c, cs, hrepr, hc⟩ := intRepr_head n
    obtain ⟨h1, h2, h3, h4, h5, h6⟩ := numHead_ne c hc
    show parseValue (f' + 1) (intRepr n ++ rest) = some (.num n, rest)
    rw [hrepr, List.cons_append]
    have hn1 : (listStartsWith "null".data (c :: (cs ++ rest)) = true) = False := by
      rw [show ("null".data : List Char) = 'n' :: "ull".data from rfl,
        listStartsWith_head_ne _ _ (Ne.symm h4)]
      simp
    have hn2 : (listStartsWith "true".data (c :: (cs ++ rest)) = true) = False := by
      rw [show ("true".data : List Char) = 't' :: "rue".data from rfl,
        listStartsWith_head_ne _ _ (Ne.symm h5)]
      simp
    have hn3 : (listStartsWith "false".data (c :: (cs ++ rest)) = true) = False := by
      rw [show ("false".data : List Char) = 'f' :: "alse".data from rfl,
        listStartsWith_head_ne _ _ (Ne.symm h6)]
      simp
    have hpn : parseNumber (c :: (cs ++ rest)) = some (n, rest) := by
      rw [show c :: (cs ++ rest) = (c :: cs) ++ rest from rfl, ← hrepr]
      exact parseNumber_intRepr n rest hsep
    simp only [parseValue, eq_false h1, eq_false h2, eq_false h3, hn1, hn2, hn3,
      hpn, if_false]
  | .str s, f, _, rest, _, hf, _ => by
    obtain ⟨f', rfl⟩ : ∃ f', f = f' + 1 := ⟨f - 1, by simp [jSize] at hf; omega⟩
    show parseValue (f' + 1) (('"' :: encCharsAux s.data ++ ['"']) ++ rest) =
      some (.str s, rest)
    have hshape : ('"' :: encCharsAux s.data ++ ['"']) ++ rest
        = '"' :: (encCharsAux s.data ++ ('"' :: rest)) := by simp
    rw [hshape]
    have h1 := parseStringBody_enc s.data rest
    simp only [parseValue, h1, eq_self_iff_true, if_true, Option.map]
  | .arr .nil, f, _, rest, _, hf, _ => by
    obtain ⟨f', rfl⟩ : ∃ f', f = f' + 1 := ⟨f - 1, by simp [jSize] at hf; omega⟩
    rfl
  | .arr (.cons x xs), f, lvl, rest, hwf, hf, _ => by
    obtain ⟨f', rfl⟩ : ∃ f', f = f' + 1 := ⟨f - 1, by simp [jSize] at hf; omega⟩
    have hfl : jaSize (.cons x xs) ≤ f' := by simp only [jSize] at hf; omega
    have hshape : json_dumps_val (.arr (.cons x xs)) lvl ++ rest
        = '[' :: '\n' :: (dumpsElems (.cons x xs) (lvl + 1) ++
            ('\n' :: (pad lvl ++ (']' :: rest)))) := by
      show ('[' :: '\n' :: (dumpsElems (.cons x xs) (lvl + 1) ++
          '\n' :: (pad lvl ++ [']']))) ++ rest = _
      simp
    rw [hshape, dumpsElems_stream (.cons x xs) (lvl + 1) _ (by simp [jaIsNil])]
    obtain ⟨c, cs, hes, hws, hbr, _⟩ :=
      elemStreamT_head (lvl + 1) x xs ('\n' :: (pad lvl ++ (']' :: rest)))
    have hsw : skipWs ('\n' :: (pad (lvl + 1) ++
        elemStreamT (lvl + 1) (.cons x xs) ('\n' :: (pad lvl ++ (']' :: rest)))))
        = c :: cs := by
      rw [skipWs_nl, skipWs_pad, hes, skipWs_nonws c _ hws]
    have h5 : parseElemLoop f' (c :: cs) = some (.arr (.cons x xs), rest) := by
      rw [← hes]
      exact parseElemLoop_stream (.cons x xs) f' (lvl + 1) lvl rest hwf
        (by simp [jaIsNil]) hfl
    simp only [parseValue, hsw, h5,
      eq_false (show ¬(('[' : Char) = '"') by decide),
      eq_false (show ¬(('[' : Char) = '\x7b') by decide), eq_self_iff_true, if_true,
      if_false]
    rw [if_neg hbr]
  | .obj .nil, f, _, rest, _, hf, _ => by
    obtain ⟨f', rfl⟩ : ∃ f', f = f' + 1 := ⟨f - 1, by simp [jSize] at hf; omega⟩
    rfl
  | .obj (.cons k v tl), f, lvl, rest, hwf, hf, _ => by
    obtain ⟨f', rfl⟩ : ∃ f', f = f' + 1 := ⟨f - 1, by simp [jSize] at hf; omega⟩
    have hfl : joSize (.cons k v tl) ≤ f' := by simp only [jSize] at hf; omega
    have hwf2 : keysNodup (.cons k v tl) = true ∧ wfO (.cons k v tl) = true := by
      have hb : (keysNodup (.cons k v tl) && wfO (.cons k v tl)) = true := hwf
      simpa using hb
    have hshape : json_dumps_val (.obj (.cons k v tl)) lvl ++ rest
        = '\x7b' :: '\n' :: (dumpsMems (.cons k v tl) (lvl + 1) ++
            ('\n' :: (pad lvl ++ ('\x7d' :: rest)))) := by
      show ('\x7b' :: '\n' :: (dumpsMems (.cons k v tl) (lvl + 1) ++
          '\n' :: (pad lvl ++ ['\x7d']))) ++ rest = _
      simp
    rw [hshape, dumpsMems_stream (.cons k v tl) (lvl + 1) _ (by simp [joIsNil])]
    have hsw : skipWs ('\n' :: (pad (lvl + 1) ++ '"' ::
        memStreamT (lvl + 1) (.cons k v tl) ('\n' :: (pad lvl ++ ('\x7d' :: rest)))))
        = '"' :: memStreamT (lvl + 1) (.cons k v tl)
            ('\n' :: (pad lvl ++ ('\x7d' :: rest))) := by
      rw [skipWs_nl, skipWs_pad, skipWs_nonws '"' _ (by decide)]
    have h4 : parseMemberLoop f' (memStreamT (lvl + 1) (.cons k v tl)
        ('\n' :: (pad lvl ++ ('\x7d' :: rest)))) = some (.cons k v tl, rest) :=
      parseMemberLoop_stream (.cons k v tl) f' (lvl + 1) lvl rest hwf2.2
        (by simp [joIsNil]) hfl
    simp only [parseValue, hsw, h4,
      eq_false (show ¬(('\x7b' : Char) = '"') by decide),
      eq_false (show ¬(('"' : Char) = '\x7d') by decide), eq_self_iff_true, if_true,
      if_false, Option.map]
    rw [dictOf_nodup_id _ hwf2.1]
/-- The object-member loop reads back a serialized member stream. -/
theorem parseMemberLoop_stream : ∀ (l : JObj) (f lvl lvl0 : Nat) (rest : List Char),
    wfO l = true → joIsNil l = false → joSize l ≤ f →
    parseMemberLoop f (memStreamT lvl l ('\n' :: (pad lvl0 ++ ('\x7d' :: rest)))) =
      some (l, rest)
  | .nil, _, _, _, _, _, h, _ => absurd h (by simp [joIsNil])
  | .cons k v tl, f, lvl, lvl0, rest, hwf, _, hfuel => by
    obtain ⟨f', rfl⟩ : ∃ f', f = f' + 1 := ⟨f - 1, by simp [joSize] at hfuel; omega⟩
    have hwf2 : wfJ v = true ∧ wfO tl = true := by
      have hb : (wfJ v && wfO tl) = true := hwf
      simpa using hb
    have hfv : jSize v ≤ f' := by simp only [joSize] at hfuel; omega
    cases tl with
    | nil =>
      have hstream : memStreamT lvl (.cons k v .nil)
          ('\n' :: (pad lvl0 ++ ('\x7d' :: rest)))
          = encCharsAux k.data ++ '"' :: (':' :: ' ' ::
            (json_dumps_val v lvl ++ ('\n' :: (pad lvl0 ++ ('\x7d' :: rest))))) := rfl
      rw [hstream]
      have h1 := parseStringBody_enc k.data (':' :: ' ' ::
        (json_dumps_val v lvl ++ ('\n' :: (pad lvl0 ++ ('\x7d' :: rest)))))
      have hsw1 : skipWs (':' :: ' ' ::
          (json_dumps_val v lvl ++ ('\n' :: (pad lvl0 ++ ('\x7d' :: rest)))))
          = ':' :: ' ' ::
            (json_dumps_val v lvl ++ ('\n' :: (pad lvl0 ++ ('\x7d' :: rest)))) :=
        skipWs_nonws ':' _ (by decide)
      have hsw2 : skipWs (' ' ::
          (json_dumps_val v lvl ++ ('\n' :: (pad lvl0 ++ ('\x7d' :: rest)))))
          = json_dumps_val v lvl ++ ('\n' :: (pad lvl0 ++ ('\x7d' :: rest))) := by
        rw [skipWs_sp]
        exact skipWs_dumps v lvl _
      have h3 : parseValue f' (json_dumps_val v lvl ++
          ('\n' :: (pad lvl0 ++ ('\x7d' :: rest))))
          = some (v, '\n' :: (pad lvl0 ++ ('\x7d' :: rest))) :=
        parseValue_dumps v f' lvl _ hwf2.1 hfv (sepSafe_nl _)
      have hsw3 : skipWs ('\n' :: (pad lvl0 ++ ('\x7d' :: rest))) = '\x7d' :: rest := by
        rw [skipWs_nl, skipWs_pad, skipWs_nonws '\x7d' _ (by decide)]
      simp only [parseMemberLoop, h1, hsw1, hsw2, h3, hsw3, eq_self_iff_true,
        if_true]
    | cons k2 v2 tl2 =>
      have hfl2 : joSize (.cons k2 v2 tl2) ≤ f' := by
        simp only [joSize] at hfuel ⊢
        omega
      have hstream : memStreamT lvl (.cons k v (.cons k2 v2 tl2))
          ('\n' :: (pad lvl0 ++ ('\x7d' :: rest)))
          = encCharsAux k.data ++ '"' :: (':' :: ' ' ::
            (json_dumps_val v lvl ++ (',' :: '\n' :: (pad lvl ++ '"' ::
              memStreamT lvl (.cons k2 v2 tl2)
                ('\n' :: (pad lvl0 ++ ('\x7d' :: rest))))))) := rfl
      rw [hstream]
      have h1 := parseStringBody_enc k.data (':' :: ' ' ::
        (json_dumps_val v lvl ++ (',' :: '\n' :: (pad lvl ++ '"' ::
          memStreamT lvl (.cons k2 v2 tl2) ('\n' :: (pad lvl0 ++ ('\x7d' :: rest)))))))
      have hsw1 : skipWs (':' :: ' ' ::
          (json_dumps_val v lvl ++ (',' :: '\n' :: (pad lvl ++ '"' ::
            memStreamT lvl (.cons k2 v2 tl2)
              ('\n' :: (pad lvl0 ++ ('\x7d' :: rest)))))))
          = ':' :: ' ' ::
            (json_dumps_val v lvl ++ (',' :: '\n' :: (pad lvl ++ '"' ::
              memStreamT lvl (.cons k2 v2 tl2)
                ('\n' :: (pad lvl0 ++ ('\x7d' :: rest)))))) :=
        skipWs_nonws ':' _ (by decide)
      have hsw2 : skipWs (' ' ::
          (json_dumps_val v lvl ++ (',' :: '\n' :: (pad lvl ++ '"' ::
            memStreamT lvl (.cons k2 v2 tl2)
              ('\n' :: (pad lvl0 ++ ('\x7d' :: rest)))))))
          = json_dumps_val v lvl ++ (',' :: '\n' :: (pad lvl ++ '"' ::
            memStreamT lvl (.cons k2 v2 tl2)
              ('\n' :: (pad lvl0 ++ ('\x7d' :: rest))))) := by
        rw [skipWs_sp]
        exact skipWs_dumps v lvl _
      have h3 : parseValue f' (json_dumps_val v lvl ++ (',' :: '\n' ::
          (pad lvl ++ '"' :: memStreamT lvl (.cons k2 v2 tl2)
            ('\n' :: (pad lvl0 ++ ('\x7d' :: rest))))))
          = some (v, ',' :: '\n' :: (pad lvl ++ '"' ::
            memStreamT lvl (.cons k2 v2 tl2)
              ('\n' :: (pad lvl0 ++ ('\x7d' :: rest))))) :=
        parseValue_dumps v f' lvl _ hwf2.1 hfv (sepSafe_comma _)
      have hsw3 : skipWs (',' :: '\n' :: (pad lvl ++ '"' ::
          memStreamT lvl (.cons k2 v2 tl2) ('\n' :: (pad lvl0 ++ ('\x7d' :: rest)))))
          = ',' :: '\n' :: (pad lvl ++ '"' ::
            memStreamT lvl (.cons k2 v2 tl2)
              ('\n' :: (pad lvl0 ++ ('\x7d' :: rest)))) :=
        skipWs_nonws ',' _ (by decide)
      have hsw4 : skipWs ('\n' :: (pad lvl ++ '"' ::
          memStreamT lvl (.cons k2 v2 tl2) ('\n' :: (pad lvl0 ++ ('\x7d' :: rest)))))
          = '"' :: memStreamT lvl (.cons k2 v2 tl2)
            ('\n' :: (pad lvl0 ++ ('\x7d' :: rest))) := by
        rw [skipWs_nl, skipWs_pad, skipWs_nonws '"' _ (by decide)]
      have h4 : parseMemberLoop f' (memStreamT lvl (.cons k2 v2 tl2)
          ('\n' :: (pad lvl0 ++ ('\x7d' :: rest)))) = some (.cons k2 v2 tl2, rest) :=
        parseMemberLoop_stream (.cons k2 v2 tl2) f' lvl lvl0 rest hwf2.2
          (by simp [joIsNil]) hfl2
      simp only [parseMemberLoop, h1, hsw1, hsw2, h3, hsw3, hsw4, h4,
        eq_false (show ¬((',' : Char) = '\x7d') by decide), eq_self_iff_true,
        if_true, if_false, Option.map]
/-- The array-element loop reads back a serialized element stream. -/
theorem parseElemLoop_stream : ∀ (l : JArr) (f lvl lvl0 : Nat) (rest : List Char),
    wfA l = true → jaIsNil l = false → jaSize l ≤ f →
    parseElemLoop f (elemStreamT lvl l ('\n' :: (pad lvl0 ++ (']' :: rest)))) =
      some (.arr l, rest)
  | .nil, _, _, _, _, _, h, _ => absurd h (by simp [jaIsNil])
  | .cons x xs, f, lvl, lvl0, rest, hwf, _, hfuel => by
    obtain ⟨f', rfl⟩ : ∃ f', f = f' + 1 := ⟨f - 1, by simp [jaSize] at hfuel; omega⟩
    have hwf2 : wfJ x = true ∧ wfA xs = true := by
      have hb : (wfJ x && wfA xs) = true := hwf
      simpa using hb
    have hfx : jSize x ≤ f' := by simp only [jaSize] at hfuel; omega
    cases xs with
    | nil =>
      have hstream : elemStreamT lvl (.cons x .nil)
          ('\n' :: (pad lvl0 ++ (']' :: rest)))
          = json_dumps_val x lvl ++ ('\n' :: (pad lvl0 ++ (']' :: rest))) := rfl
      rw [hstream]
      have h3 : parseValue f' (json_dumps_val x lvl ++
          ('\n' :: (pad lvl0 ++ (']' :: rest))))
          = some (x, '\n' :: (pad lvl0 ++ (']' :: rest))) :=
        parseValue_dumps x f' lvl _ hwf2.1 hfx (sepSafe_nl _)
      have hsw : skipWs ('\n' :: (pad lvl0 ++ (']' :: rest))) = ']' :: rest := by
        rw [skipWs_nl, skipWs_pad, skipWs_nonws ']' _ (by decide)]
      simp only [parseElemLoop, h3, hsw, eq_self_iff_true, if_true]
    | cons y ys =>
      have hfl2 : jaSize (.cons y ys) ≤ f' := by
        simp only [jaSize] at hfuel ⊢
        omega
      have hstream : elemStreamT lvl (.cons x (.cons y ys))
          ('\n' :: (pad lvl0 ++ (']' :: rest)))
          = json_dumps_val x lvl ++ (',' :: '\n' :: (pad lvl ++
            elemStreamT lvl (.cons y ys) ('\n' :: (pad lvl0 ++ (']' :: rest))))) := rfl
      rw [hstream]
      have h3 : parseValue f' (json_dumps_val x lvl ++ (',' :: '\n' :: (pad lvl ++
          elemStreamT lvl (.cons y ys) ('\n' :: (pad lvl0 ++ (']' :: rest))))))
          = some (x, ',' :: '\n' :: (pad lvl ++
            elemStreamT lvl (.cons y ys) ('\n' :: (pad lvl0 ++ (']' :: rest))))) :=
        parseValue_dumps x f' lvl _ hwf2.1 hfx (sepSafe_comma _)
      have hsw1 : skipWs (',' :: '\n' :: (pad lvl ++
          elemStreamT lvl (.cons y ys) ('\n' :: (pad lvl0 ++ (']' :: rest)))))
          = ',' :: '\n' :: (pad lvl ++
            elemStreamT lvl (.cons y ys) ('\n' :: (pad lvl0 ++ (']' :: rest)))) :=
        skipWs_nonws ',' _ (by decide)
      have hsw2 : skipWs ('\n' :: (pad lvl ++
          elemStreamT lvl (.cons y ys) ('\n' :: (pad lvl0 ++ (']' :: rest)))))
          = elemStreamT lvl (.cons y ys) ('\n' :: (pad lvl0 ++ (']' :: rest))) := by
        rw [skipWs_nl, skipWs_pad]
        exact skipWs_elemStreamT lvl y ys _
      have h4 : parseElemLoop f' (elemStreamT lvl (.cons y ys)
          ('\n' :: (pad lvl0 ++ (']' :: rest)))) = some (.arr (.cons y ys), rest) :=
        parseElemLoop_stream (.cons y ys) f' lvl lvl0 rest hwf2.2
          (by simp [jaIsNil]) hfl2
      simp only [parseElemLoop, h3, hsw1, hsw2, h4,
      eq_false (show ¬((',' : Char) = ']') by decide), eq_self_iff_true, if_true,
      if_false]
end

theorem keyMem_setItem (q k : String) (v : Json) : ∀ acc : JObj,
    keyMem q (setItem k v acc) = (keyMem q acc || decide (q = k))
  | .nil => by simp [setItem, keyMem]
  | .cons k' v' tl => by
    by_cases hk : k = k'
    · simp only [setItem, if_pos hk, keyMem]
      subst hk
      by_cases hq : q = k <;> simp [hq]
    · simp only [setItem, if_neg hk, keyMem, keyMem_setItem q k v tl]
      rw [Bool.or_assoc]

theorem keysNodup_setItem (k : String) (v : Json) : ∀ acc : JObj,
    keysNodup acc = true → keysNodup (setItem k v acc) = true
  | .nil, _ => by simp [setItem, keysNodup, keyMem]
  | .cons k' v' tl, h => by
    simp only [keysNodup, Bool.and_eq_true, Bool.not_eq_true'] at h
    by_cases hk : k = k'
    · simp only [setItem, if_pos hk, keysNodup, Bool.and_eq_true, Bool.not_eq_true']
      exact h
    · simp only [setItem, if_neg hk, keysNodup, Bool.and_eq_true, Bool.not_eq_true']
      refine ⟨?_, keysNodup_setItem k v tl h.2⟩
      rw [keyMem_setItem, h.1]
      simp only [Bool.false_or, decide_eq_false_iff_not]
      exact fun he => hk he.symm

theorem wfO_setItem (k : String) (v : Json) (hv : wfJ v = true) : ∀ acc : JObj,
    wfO acc = true → wfO (setItem k v acc) = true
  | .nil, _ => by simp [setItem, wfO, hv]
  | .cons k' v' tl, h => by
    simp only [wfO, Bool.and_eq_true] at h
    by_cases hk : k = k'
    · simp only [setItem, if_pos hk, wfO, Bool.and_eq_true]
      exact ⟨hv, h.2⟩
    · simp only [setItem, if_neg hk, wfO, Bool.and_eq_true]
      exact ⟨h.1, wfO_setItem k v hv tl h.2⟩

theorem keysNodup_dictAdd : ∀ (ms acc : JObj), keysNodup acc = true →
    keysNodup (dictAdd acc ms) = true
  | .nil, _, h => h
  | .cons k v tl, acc, h =>
    keysNodup_dictAdd tl (setItem k v acc) (keysNodup_setItem k v acc h)

/-- Any `dict(pairs)` has pairwise-distinct keys. -/
theorem keysNodup_dictOf (ms : JObj) : keysNodup (dictOf ms) = true :=
  keysNodup_dictAdd ms .nil rfl

theorem wfO_dictAdd : ∀ (ms acc : JObj), wfO ms = true → wfO acc = true →
    wfO (dictAdd acc ms) = true
  | .nil, _, _, hacc => hacc
  | .cons k v tl, acc, hms, hacc => by
    simp only [wfO, Bool.and_eq_true] at hms
    exact wfO_dictAdd tl (setItem k v acc) hms.2 (wfO_setItem k v hms.1 acc hacc)

theorem wfO_dictOf (ms : JObj) (h : wfO ms = true) : wfO (dictOf ms) = true :=
  wfO_dictAdd ms .nil h rfl

mutual
/-- Every value produced by the scanner is well-formed: objects coming
out of `dict(pairs)` never hold duplicate keys. -/
theorem parseValue_wf : ∀ (f : Nat) (cs : List Char) (v : Json) (r : List Char),
    parseValue f cs = some (v, r) → wfJ v = true
  | 0, _, _, _, h => absurd h (by simp [parseValue])
  | f + 1, cs, v, r, h => by
    simp only [parseValue] at h
    split at h
    · exact absurd h (by simp)
    · split at h
      · rw [Option.map_eq_some'] at h
        obtain ⟨p, hp, heq⟩ := h
        simp only [Prod.mk.injEq] at heq
        obtain ⟨rfl, rfl⟩ := heq
        rfl
      · split at h
        · split at h
          · exact absurd h (by simp)
          · split at h
            · simp only [Option.some.injEq, Prod.mk.injEq] at h
              obtain ⟨rfl, rfl⟩ := h
              rfl
            · split at h
              · rw [Option.map_eq_some'] at h
                obtain ⟨p, hp, heq⟩ := h
                simp only [Prod.mk.injEq] at heq
                obtain ⟨rfl, rfl⟩ := heq
                have hwfms := parseMemberLoop_wfO f _ p.1 p.2 hp
                show (keysNodup (dictOf p.1) && wfO (dictOf p.1)) = true
                rw [keysNodup_dictOf, wfO_dictOf p.1 hwfms]
                rfl
              · exact absurd h (by simp)
        · split at h
          · split at h
            · exact parseElemLoop_wf f [] v r h
            · split at h
              · simp only [Option.some.injEq, Prod.mk.injEq] at h
                obtain ⟨rfl, rfl⟩ := h
                rfl
              · exact parseElemLoop_wf f _ v r h
          · split at h
            · simp only [Option.some.injEq, Prod.mk.injEq] at h
              obtain ⟨rfl, rfl⟩ := h
              rfl
            · split at h
              · simp only [Option.some.injEq, Prod.mk.injEq] at h
                obtain ⟨rfl, rfl⟩ := h
                rfl
              · split at h
                · simp only [Option.some.injEq, Prod.mk.injEq] at h
                  obtain ⟨rfl, rfl⟩ := h
                  rfl
                · split at h
                  · simp only [Option.some.injEq, Prod.mk.injEq] at h
                    obtain ⟨rfl, rfl⟩ := h
                    rfl
                  · exact absurd h (by simp)
/-- Members read by the object loop have well-formed values. -/
theorem parseMemberLoop_wfO : ∀ (f : Nat) (cs : List Char) (ms : JObj) (r : List Char),
    parseMemberLoop f cs = some (ms, r) → wfO ms = true
  | 0, _, _, _, h => absurd h (by simp [parseMemberLoop])
  | f + 1, cs, ms, r, h => by
    simp only [parseMemberLoop] at h
    split at h
    · exact absurd h (by simp)
    · split at h
      · exact absurd h (by simp)
      · split at h
        · split at h
          · exact absurd h (by simp)
          · rename_i v r3 hpv
            split at h
            · exact absurd h (by simp)
            · split at h
              · simp only [Option.some.injEq, Prod.mk.injEq] at h
                obtain ⟨rfl, rfl⟩ := h
                show (wfJ v && wfO .nil) = true
                rw [parseValue_wf f _ v r3 hpv]
                rfl
              · split at h
                · split at h
                  · exact absurd h (by simp)
                  · split at h
                    · rw [Option.map_eq_some'] at h
                      obtain ⟨p, hp, heq⟩ := h
                      simp only [Prod.mk.injEq] at heq
                      obtain ⟨rfl, rfl⟩ := heq
                      show (wfJ v && wfO p.1) = true
                      rw [parseValue_wf f _ v r3 hpv,
                        parseMemberLoop_wfO f _ p.1 p.2 hp]
                      rfl
                    · exact absurd h (by simp)
                · exact absurd h (by simp)
        · exact absurd h (by simp)
/-- Arrays read by the element loop are well-formed. -/
theorem parseElemLoop_wf : ∀ (f : Nat) (cs : List Char) (v : Json) (r : List Char),
    parseElemLoop f cs = some (v, r) → wfJ v = true
  | 0, _, _, _, h => absurd h (by simp [parseElemLoop])
  | f + 1, cs, v, r, h => by
    simp only [parseElemLoop] at h
    split at h
    · exact absurd h (by simp)
    · rename_i v0 r1 hpv
      split at h
      · exact absurd h (by simp)
      · split at h
        · simp only [Option.some.injEq, Prod.mk.injEq] at h
          obtain ⟨rfl, rfl⟩ := h
          show (wfJ v0 && wfA .nil) = true
          rw [parseValue_wf f _ v0 r1 hpv]
          rfl
        · split at h
          · split at h
            · rename_i els r3 hpe
              simp only [Option.some.injEq, Prod.mk.injEq] at h
              obtain ⟨rfl, rfl⟩ := h
              show (wfJ v0 && wfA els) = true
              have h2 : wfA els = true := parseElemLoop_wf f _ (.arr els) r3 hpe
              rw [parseValue_wf f _ v0 r1 hpv, h2]
              rfl
            · exact absurd h (by simp)
          · exact absurd h (by simp)
end

mutual
/-- A value's size never exceeds its serialization's length, so the
`len + 1` fuel of `json_loads` always suffices. -/
theorem jSize_le_dumps : ∀ (v : Json) (lvl : Nat),
    jSize v ≤ (json_dumps_val v lvl).length
  | .null, _ => by simp [json_dumps_val, jSize]
  | .bool true, _ => by simp [json_dumps_val, jSize]
  | .bool false, _ => by simp [json_dumps_val, jSize]
  | .num n, _ => by
    obtain ⟨c, cs, hrepr, _⟩ := intRepr_head n
    show jSize (.num n) ≤ (intRepr n).length
    rw [hrepr]
    simp [jSize]
  | .str s, _ => by
    show jSize (.str s) ≤ (encStr s).length
    simp [encStr, jSize]
  | .arr .nil, _ => by simp [json_dumps_val, jSize, jaSize, jaIsNil]
  | .arr (.cons x xs), lvl => by
    have h := jaSize_le_elems (.cons x xs) (lvl + 1)
    show jSize (.arr (.cons x xs)) ≤ ('[' :: '\n' :: (dumpsElems (.cons x xs) (lvl + 1) ++
      '\n' :: (pad lvl ++ [']']))).length
    simp only [jSize, List.length_cons, List.length_append, pad,
      List.length_replicate]
    omega
  | .obj .nil, _ => by simp [json_dumps_val, jSize, joSize, joIsNil]
  | .obj (.cons k v tl), lvl => by
    have h := joSize_le_mems (.cons k v tl) (lvl + 1)
    show jSize (.obj (.cons k v tl)) ≤ ('\x7b' :: '\n' :: (dumpsMems (.cons k v tl) (lvl + 1) ++
      '\n' :: (pad lvl ++ ['\x7d']))).length
    simp only [jSize, List.length_cons, List.length_append, pad,
      List.length_replicate]
    omega
theorem jaSize_le_elems : ∀ (l : JArr) (lvl : Nat),
    jaSize l ≤ (dumpsElems l lvl).length + 2
  | .nil, _ => by simp [dumpsElems, jaSize]
  | .cons x xs, lvl => by
    have hx := jSize_le_dumps x lvl
    cases xs with
    | nil =>
      have h1 : dumpsElems (.cons x .nil) lvl
          = pad lvl ++ json_dumps_val x lvl ++ [] := rfl
      rw [h1]
      simp only [jaSize]
      simp only [List.length_append, List.append_nil, pad, List.length_replicate]
      omega
    | cons y ys =>
      have hys := jaSize_le_elems (.cons y ys) lvl
      have h1 : dumpsElems (.cons x (.cons y ys)) lvl
          = pad lvl ++ json_dumps_val x lvl ++
            (',' :: '\n' :: dumpsElems (.cons y ys) lvl) := rfl
      rw [h1]
      simp only [jaSize] at hys ⊢
      simp only [List.length_append, List.length_cons, pad, List.length_replicate]
      omega
theorem joSize_le_mems : ∀ (l : JObj) (lvl : Nat),
    joSize l ≤ (dumpsMems l lvl).length + 2
  | .nil, _ => by simp [dumpsMems, joSize]
  | .cons k v tl, lvl => by
    have hv := jSize_le_dumps v lvl
    cases tl with
    | nil =>
      have h1 : dumpsMems (.cons k v .nil) lvl
          = pad lvl ++ ('"' :: encCharsAux k.data ++ ['"']) ++ ':' :: ' ' ::
            json_dumps_val v lvl ++ [] := rfl
      rw [h1]
      simp only [joSize]
      simp only [List.length_append, List.append_nil, pad, List.length_replicate,
        List.length_cons]
      omega
    | cons k2 v2 tl2 =>
      have htl := joSize_le_mems (.cons k2 v2 tl2) lvl
      have h1 : dumpsMems (.cons k v (.cons k2 v2 tl2)) lvl
          = pad lvl ++ ('"' :: encCharsAux k.data ++ ['"']) ++ ':' :: ' ' ::
            json_dumps_val v lvl ++
            (',' :: '\n' :: dumpsMems (.cons k2 v2 tl2) lvl) := rfl
      rw [h1]
      simp only [joSize] at htl ⊢
      simp only [List.length_append, List.length_cons, pad, List.length_replicate]
      omega
end

/-- `json.loads` inverts `json.dumps(·, indent=2)` followed by a trailing
newline, as the store writer produces it. -/
theorem json_loads_dumps_nl (v : Json) (hwf : wfJ v = true) :
    json_loads ⟨json_dumps_val v 0 ++ ['\n']⟩ = some v := by
  unfold json_loads
  have hskip : skipWs (json_dumps_val v 0 ++ ['\n']) = json_dumps_val v 0 ++ ['\n'] :=
    skipWs_dumps v 0 ['\n']
  have hfuel : jSize v ≤ (json_dumps_val v 0 ++ ['\n']).length + 1 := by
    have := jSize_le_dumps v 0
    simp only [List.length_append, List.length_cons, List.length_nil]
    omega
  have hp := parseValue_dumps v ((json_dumps_val v 0 ++ ['\n']).length + 1) 0 ['\n']
    hwf hfuel (sepSafe_nl [])
  show (match parseValue ((json_dumps_val v 0 ++ ['\n']).length + 1)
      (skipWs (json_dumps_val v 0 ++ ['\n'])) with
    | some (w, rest) => if skipWs rest = [] then some w else none
    | none => none) = some v
  rw [hskip, hp]
  rfl

/-- `json.loads` inverts `json.dumps(·, indent=2)`. -/
theorem json_loads_dumps (v : Json) (hwf : wfJ v = true) :
    json_loads (json_dumps_pretty v) = some v := by
  unfold json_loads json_dumps_pretty
  have hskip : skipWs (json_dumps_val v 0) = json_dumps_val v 0 := by
    have h := skipWs_dumps v 0 []
    rw [List.append_nil] at h
    exact h
  have hfuel : jSize v ≤ (json_dumps_val v 0).length + 1 := by
    have := jSize_le_dumps v 0
    omega
  have hp := parseValue_dumps v ((json_dumps_val v 0).length + 1) 0 []
    hwf hfuel trivial
  rw [List.append_nil] at hp
  show (match parseValue ((json_dumps_val v 0).length + 1)
      (skipWs (json_dumps_val v 0)) with
    | some (w, rest) => if skipWs rest = [] then some w else none
    | none => none) = some v
  rw [hskip, hp]
  rfl

theorem dropWhile_space_append (p : Char → Bool) : ∀ (pre t : List Char),
    pre.all p = true → (pre ++ t).dropWhile p = t.dropWhile p
  | [], _, _ => rfl
  | c :: cs, t, h => by
    simp only [List.all_cons, Bool.and_eq_true] at h
    simp only [List.cons_append, List.dropWhile_cons, h.1, if_true]
    exact dropWhile_space_append p cs t h.2

theorem dropWhile_append_of_ne_nil (p : Char → Bool) : ∀ (s t : List Char),
    s.dropWhile p ≠ [] → (s ++ t).dropWhile p = s.dropWhile p ++ t
  | [], _, h => absurd rfl h
  | c :: cs, t, h => by
    by_cases hc : p c
    · simp only [List.cons_append, List.dropWhile_cons, hc, if_true] at h ⊢
      exact dropWhile_append_of_ne_nil p cs t h
    · simp only [List.cons_append, List.dropWhile_cons, hc]
      simp

theorem dropWhile_of_all_not (p : Char → Bool) (l : List Char)
    (h : ∀ x ∈ l, p x = false) : l.dropWhile p = l := by
  cases l with
  | nil => rfl
  | cons c cs =>
    simp only [List.dropWhile_cons, h c (List.mem_cons_self c cs)]
    simp

/-- `str.strip()` of an all-whitespace string is empty. -/
theorem pyStrip_all_space (s : List Char) (h : s.all pyIsSpace = true) :
    pyStrip s = [] := by
  unfold pyStrip
  have h1 : s.dropWhile pyIsSpace = [] := by
    rw [show s = s ++ [] from (List.append_nil s).symm, dropWhile_space_append _ _ _ h]
    rfl
  rw [h1]
  rfl

/-- `str.strip()` ignores surrounding whitespace. -/
theorem pyStrip_pad (pre post s : List Char) (hpre : pre.all pyIsSpace = true)
    (hpost : post.all pyIsSpace = true) :
    pyStrip (pre ++ s ++ post) = pyStrip s := by
  unfold pyStrip
  rw [List.append_assoc, dropWhile_space_append _ _ _ hpre]
  by_cases hnil : s.dropWhile pyIsSpace = []
  · have hall : ∀ x ∈ s, pyIsSpace x := List.dropWhile_eq_nil_iff.mp hnil
    have h2 : (s ++ post).dropWhile pyIsSpace = [] := by
      rw [dropWhile_space_append pyIsSpace s post
        (by rw [List.all_eq_true]; exact fun x hx => hall x hx)]
      rw [show post = post ++ [] from (List.append_nil post).symm,
        dropWhile_space_append _ _ _ hpost]
      rfl
    rw [h2, hnil]
  · rw [dropWhile_append_of_ne_nil _ _ _ hnil, List.reverse_append]
    rw [dropWhile_space_append _ _ _ (by rw [List.all_reverse]; exact hpost)]

/-- Everything `json.loads` returns is well-formed. -/
theorem json_loads_wf (s : String) (v : Json) (h : json_loads s = some v) :
    wfJ v = true := by
  unfold json_loads at h
  split at h
  · rename_i p hp
    split at h
    · simp only [Option.some.injEq] at h
      subst h
      exact parseValue_wf _ _ _ _ hp
    · exact absurd h (by simp)
  · exact absurd h (by simp)

theorem digit_not_space (c : Char) (h : isDigitChar c = true) :
    pyIsSpace c = false := by
  simp only [isDigitChar, Bool.and_eq_true, decide_eq_true_eq] at h
  simp only [pyIsSpace, Bool.or_eq_false_iff, decide_eq_false_iff_not]
  refine ⟨⟨⟨⟨⟨?_, ?_⟩, ?_⟩, ?_⟩, ?_⟩, ?_⟩ <;> (intro heq; subst heq; revert h; decide)

/-- `int()` succeeds on any string `str.isdigit()` accepts. -/
theorem pyIsDigit_int (s : String) (h : pyIsDigit s = true) :
    pyIntOfString s = .ok ((digitsToNat 0 s.data : Nat) : Int) := by
  simp only [pyIsDigit, Bool.and_eq_true, Bool.not_eq_true'] at h
  obtain ⟨hne, hall⟩ := h
  have hallm : ∀ x ∈ s.data, isDigitChar x = true := by
    rw [← List.all_eq_true]
    exact hall
  unfold pyIntOfString
  have hstrip : pyStrip s.data = s.data := by
    unfold pyStrip
    rw [dropWhile_of_all_not _ _ (fun x hx => digit_not_space x (hallm x hx))]
    rw [dropWhile_of_all_not _ _ (fun x hx =>
      digit_not_space x (hallm x (List.mem_reverse.mp hx)))]
    exact List.reverse_reverse s.data
  simp only [hstrip]
  split
  · rename_i ds hds
    exact absurd (hallm '-' (by rw [hds]; exact List.mem_cons_self _ _)) (by decide)
  · rename_i ds hds
    exact absurd (hallm '+' (by rw [hds]; exact List.mem_cons_self _ _)) (by decide)
  · rw [if_pos (by
      simp only [Bool.and_eq_true, ne_eq, decide_eq_true_eq]
      refine ⟨?_, hall⟩
      intro hcon
      rw [hcon] at hne
      exact absurd hne (by simp))]
    rfl

/-- A non-empty unified diff always opens with the two file-header
pseudo-lines. -/
theorem unified_diff_heads (a b : List Line) (ff tf lt : List Char)
    (h : unified_diff a b ff tf lt ≠ []) :
    ∃ restl, unified_diff a b ff tf lt =
      ("--- ".data ++ ff ++ lt) :: ("+++ ".data ++ tf ++ lt) :: restl := by
  cases hg : get_grouped_opcodes a b 3 with
  | nil => exact absurd (by unfold unified_diff; rw [hg]) h
  | cons g gs =>
    refine ⟨((g :: gs).map (hunkOf a b lt)).flatten, ?_⟩
    unfold unified_diff
    rw [hg]

theorem storedDoc_eq (st : FileState) :
    (match st.contextFile with
      | some s =>
        match json_loads s with
        | some oj => (oj, ([] : List String))
        | none => ((.obj .nil : Json),
            ["WARNING: Current context file is invalid JSON, will be overwritten"])
      | none => ((.obj .nil : Json), ([] : List String))).1 = storedDoc st := by
  unfold storedDoc
  cases st.contextFile with
  | none => rfl
  | some s =>
    cases hjs : json_loads s with
    | none => simp [hjs]
    | some oj => simp [hjs]

/-- Inversion of an applied update: the parsed input, the non-empty
diff, and the exact events and final file state. -/
theorem update_main_applied_inv (now stdin : String) (st : FileState)
    (h : (update_main now stdin st).outcome = .applied) :
    ∃ (new_json : Json) (dl : List Line),
      pyStrip stdin.data ≠ [] ∧
      json_loads ⟨pyStrip stdin.data⟩ = some new_json ∧
      dl = unified_diff
        (splitLinesKeep ((json_dumps_sorted (storedDoc st)).data ++ ['\n']))
        (splitLinesKeep ((json_dumps_sorted new_json).data ++ ['\n']))
        "claude_context.json.old".data "claude_context.json.new".data [] ∧
      dl ≠ [] ∧
      (update_main now stdin st).events =
        [.mkdirLogParent,
          .appendLog ⟨'\n' :: separator60.data ++ '\n' :: '#' :: ' ' :: now.data ++
            '\n' :: separator60.data ++ '\n' :: dl.flatten ++ ['\n']⟩,
          .writeContext ⟨(json_dumps_pretty new_json).data ++ ['\n']⟩] ∧
      (update_main now stdin st).state =
        ⟨some ⟨(json_dumps_pretty new_json).data ++ ['\n']⟩,
          st.changelog ++ ⟨'\n' :: separator60.data ++ '\n' :: '#' :: ' ' :: now.data ++
            '\n' :: separator60.data ++ '\n' :: dl.flatten ++ ['\n']⟩⟩ ∧
      (update_main now stdin st).stdout =
        ["Updated " ++ contextFilePath,
          "  +" ++ natToStr (countAdditions dl) ++ " -" ++
            natToStr (countDeletions dl) ++ " lines",
          "Diff appended to " ++ changelogPath] := by
  simp only [update_main] at h
  split at h
  · exact absurd h (by simp)
  · rename_i hnc
    split at h
    · exact absurd h (by simp)
    · rename_i new_json hjl
      split at h
      · exact absurd h (by simp)
      · rename_i hdl
        rw [storedDoc_eq st] at hdl
        refine ⟨new_json, _, hnc, hjl, rfl, hdl, ?_, ?_, ?_⟩ <;>
          (simp only [update_main, eq_false hnc, if_false, hjl]
           rw [storedDoc_eq st]
           rw [if_neg hdl])

/-- Every non-applied outcome leaves the filesystem untouched. -/
theorem update_main_shape (now stdin : String) (st : FileState) :
    (update_main now stdin st).outcome = .applied ∨
      ((update_main now stdin st).events = [] ∧ (update_main now stdin st).state = st) := by
  simp only [update_main]
  split
  · exact Or.inr ⟨rfl, rfl⟩
  · split
    · exact Or.inr ⟨rfl, rfl⟩
    · split
      · exact Or.inr ⟨rfl, rfl⟩
      · exact Or.inl rfl


/-- A run whose canonical texts agree is a complete no-op. -/
theorem update_main_noop (now stdin : String) (st : FileState) (s : String)
    (old nj : Json) (hcf : st.contextFile = some s) (hold : json_loads s = some old)
    (hne : pyStrip stdin.data ≠ []) (hnew : json_loads ⟨pyStrip stdin.data⟩ = some nj)
    (hsorted : json_dumps_sorted old = json_dumps_sorted nj) :
    update_main now stdin st = ⟨.noChanges, 0, ["No changes detected"], [], st, []⟩ := by
  simp only [update_main, eq_false hne, if_false, hnew, hcf, hold]
  rw [hsorted, unified_diff_self, if_pos rfl]

/-- C1: the update canonicalizes both documents (recursively sorted
keys, fixed indentation, trailing newline); equal canonical texts — in
particular a re-ordered but content-identical document — yield the
distinct `noChanges` outcome with no log append and no store write, and
applying the same document twice mutates the store and log only on the
first application. -/
theorem C1_canonical_noop_idempotent :
    (∀ (now stdin : String) (st : FileState) (s : String) (old nj : Json),
      st.contextFile = some s → json_loads s = some old →
      pyStrip stdin.data ≠ [] → json_loads ⟨pyStrip stdin.data⟩ = some nj →
      json_dumps_sorted old = json_dumps_sorted nj →
      update_main now stdin st = ⟨.noChanges, 0, ["No changes detected"], [], st, []⟩) ∧
    (∀ (now now2 stdin : String) (st : FileState),
      (update_main now stdin st).outcome = .applied →
      update_main now2 stdin (update_main now stdin st).state =
        ⟨.noChanges, 0, ["No changes detected"], [],
          (update_main now stdin st).state, []⟩) := by
  constructor
  · exact fun now stdin st s old nj hcf hold hne hnew hs =>
      update_main_noop now stdin st s old nj hcf hold hne hnew hs
  · intro now now2 stdin st h
    obtain ⟨nj, dl, hne, hjl, hdl, hdlne, hev, hstate, hout⟩ :=
      update_main_applied_inv now stdin st h
    have hwf : wfJ nj = true := json_loads_wf _ _ hjl
    have hF : json_loads ⟨(json_dumps_pretty nj).data ++ ['\n']⟩ = some nj :=
      json_loads_dumps_nl nj hwf
    rw [hstate]
    exact update_main_noop now2 stdin _ _ nj nj rfl hF hne hjl rfl

/-- Witness for C1 at concrete inputs: a key-reordered resubmission is a
no-op, and a fresh apply followed by an identical resubmission leaves
the second run changeless. -/
theorem C1_witness :
    ((⟨some "\x7b\n  \"a\": 1,\n  \"b\": 2\n\x7d\n", "log"⟩ : FileState).contextFile =
        some "\x7b\n  \"a\": 1,\n  \"b\": 2\n\x7d\n" ∧
      json_loads "\x7b\n  \"a\": 1,\n  \"b\": 2\n\x7d\n" =
        some (.obj (.cons "a" (.num 1) (.cons "b" (.num 2) .nil))) ∧
      pyStrip (" \x7b\"b\": 2, \"a\": 1\x7d\n" : String).data ≠ [] ∧
      json_loads ⟨pyStrip (" \x7b\"b\": 2, \"a\": 1\x7d\n" : String).data⟩ =
        some (.obj (.cons "b" (.num 2) (.cons "a" (.num 1) .nil))) ∧
      json_dumps_sorted (.obj (.cons "a" (.num 1) (.cons "b" (.num 2) .nil))) =
        json_dumps_sorted (.obj (.cons "b" (.num 2) (.cons "a" (.num 1) .nil))) ∧
      update_main "t" " \x7b\"b\": 2, \"a\": 1\x7d\n"
          ⟨some "\x7b\n  \"a\": 1,\n  \"b\": 2\n\x7d\n", "log"⟩ =
        ⟨.noChanges, 0, ["No changes detected"], [],
          ⟨some "\x7b\n  \"a\": 1,\n  \"b\": 2\n\x7d\n", "log"⟩, []⟩) ∧
    ((update_main "t1" "\x7b\"a\": 1\x7d" ⟨none, ""⟩).outcome = .applied ∧
      update_main "t2" "\x7b\"a\": 1\x7d" (update_main "t1" "\x7b\"a\": 1\x7d" ⟨none, ""⟩).state =
        ⟨.noChanges, 0, ["No changes detected"], [],
          (update_main "t1" "\x7b\"a\": 1\x7d" ⟨none, ""⟩).state, []⟩) :=
  ⟨⟨rfl, rfl, by decide, rfl, rfl,
    C1_canonical_noop_idempotent.1 "t" " \x7b\"b\": 2, \"a\": 1\x7d\n"
      ⟨some "\x7b\n  \"a\": 1,\n  \"b\": 2\n\x7d\n", "log"⟩
      "\x7b\n  \"a\": 1,\n  \"b\": 2\n\x7d\n"
      (.obj (.cons "a" (.num 1) (.cons "b" (.num 2) .nil)))
      (.obj (.cons "b" (.num 2) (.cons "a" (.num 1) .nil)))
      rfl rfl (by decide) rfl rfl⟩,
   ⟨by rfl,
    C1_canonical_noop_idempotent.2 "t1" "t2" "\x7b\"a\": 1\x7d" ⟨none, ""⟩ (by rfl)⟩⟩

/-- C3: an accepted update performs, in order, the log-parent `mkdir`,
exactly one append to the changelog (prior history surviving as a
prefix), and only then the store overwrite; any other outcome performs
no filesystem action at all. -/
theorem C3_log_before_store (now stdin : String) (st : FileState) :
    ((update_main now stdin st).outcome = .applied →
      ∃ (entry newStore : String),
        (update_main now stdin st).events =
          [.mkdirLogParent, .appendLog entry, .writeContext newStore] ∧
        (update_main now stdin st).state.changelog = st.changelog ++ entry ∧
        (update_main now stdin st).state.contextFile = some newStore) ∧
    ((update_main now stdin st).outcome ≠ .applied →
      (update_main now stdin st).events = [] ∧
      (update_main now stdin st).state = st) := by
  constructor
  · intro h
    obtain ⟨nj, dl, _, _, _, _, hev, hstate, _⟩ := update_main_applied_inv now stdin st h
    refine ⟨_, _, hev, ?_, ?_⟩ <;> rw [hstate]
  · intro h
    rcases update_main_shape now stdin st with hap | hok
    · exact absurd hap h
    · exact hok

/-- Witness for C3: a concrete accepted update runs mkdir, one log
append, then the store write. -/
theorem C3_witness :
    (update_main "t" "\x7b\"a\": 1\x7d" ⟨none, "old"⟩).outcome = .applied ∧
    ∃ (entry newStore : String),
      (update_main "t" "\x7b\"a\": 1\x7d" ⟨none, "old"⟩).events =
        [.mkdirLogParent, .appendLog entry, .writeContext newStore] ∧
      (update_main "t" "\x7b\"a\": 1\x7d" ⟨none, "old"⟩).state.changelog =
        "old" ++ entry ∧
      (update_main "t" "\x7b\"a\": 1\x7d" ⟨none, "old"⟩).state.contextFile =
        some newStore :=
  ⟨by rfl, (C3_log_before_store "t" "\x7b\"a\": 1\x7d" ⟨none, "old"⟩).1 (by rfl)⟩

/-- C4: input that does not parse as JSON is rejected on the error
channel with exit 1, leaving the store and the log untouched. -/
theorem C4_invalid_json_rejected (now stdin : String) (st : FileState)
    (h1 : pyStrip stdin.data ≠ [])
    (h2 : json_loads ⟨pyStrip stdin.data⟩ = none) :
    update_main now stdin st =
      ⟨.errorInvalidJson, 1, [], ["ERROR: Invalid JSON in new content"], st, []⟩ := by
  simp only [update_main, eq_false h1, if_false, h2]

/-- Witness for C4 at input `not json`. -/
theorem C4_witness :
    pyStrip ("not json" : String).data ≠ [] ∧
    json_loads ⟨pyStrip ("not json" : String).data⟩ = none ∧
    update_main "t" "not json" ⟨some "\x7b\x7d", "log"⟩ =
      ⟨.errorInvalidJson, 1, [], ["ERROR: Invalid JSON in new content"],
        ⟨some "\x7b\x7d", "log"⟩, []⟩ :=
  ⟨by decide, by rfl,
    C4_invalid_json_rejected "t" "not json" ⟨some "\x7b\x7d", "log"⟩ (by decide) (by rfl)⟩

/-- C8: the persisted store, re-parsed and re-canonicalized (sorted
keys, indent 2, trailing newline), is byte-identical to the canonical
form of the accepted input document. -/
theorem C8_roundtrip (now stdin : String) (st : FileState)
    (h : (update_main now stdin st).outcome = .applied) :
    ∃ (F : String) (v w : Json),
      (update_main now stdin st).state.contextFile = some F ∧
      json_loads ⟨pyStrip stdin.data⟩ = some v ∧
      json_loads F = some w ∧
      (json_dumps_sorted w).data ++ ['\n'] = (json_dumps_sorted v).data ++ ['\n'] := by
  obtain ⟨nj, dl, hne, hjl, _, _, _, hstate, _⟩ := update_main_applied_inv now stdin st h
  refine ⟨⟨(json_dumps_pretty nj).data ++ ['\n']⟩, nj, nj, ?_, hjl, ?_, rfl⟩
  · rw [hstate]
  · exact json_loads_dumps_nl nj (json_loads_wf _ _ hjl)

/-- Witness for C8: a concrete accepted update round-trips. -/
theorem C8_witness :
    (update_main "t" "\x7b\"b\": 2, \"a\": 1\x7d" ⟨none, ""⟩).outcome = .applied ∧
    ∃ (F : String) (v w : Json),
      (update_main "t" "\x7b\"b\": 2, \"a\": 1\x7d" ⟨none, ""⟩).state.contextFile = some F ∧
      json_loads ⟨pyStrip ("\x7b\"b\": 2, \"a\": 1\x7d" : String).data⟩ = some v ∧
      json_loads F = some w ∧
      (json_dumps_sorted w).data ++ ['\n'] = (json_dumps_sorted v).data ++ ['\n'] :=
  ⟨by rfl, C8_roundtrip "t" "\x7b\"b\": 2, \"a\": 1\x7d" ⟨none, ""⟩ (by rfl)⟩

/-- C9 (amended): the appended block is a newline, a separator line, a
`# timestamp` line, a separator line, then the unified-diff lines joined
with NO separator (the `---`, `+++` and `@@` pseudo-lines carry no line
terminator of their own, so they run together with what follows on one
physical line), and a final newline. -/
theorem C9_entry_structure (now stdin : String) (st : FileState)
    (h : (update_main now stdin st).outcome = .applied) :
    ∃ (dl : List Line) (newStore : String),
      dl ≠ [] ∧
      dl.head? = some ("--- claude_context.json.old".data) ∧
      dl.tail.head? = some ("+++ claude_context.json.new".data) ∧
      (update_main now stdin st).events =
        [.mkdirLogParent,
          .appendLog ⟨'\n' :: separator60.data ++ '\n' :: '#' :: ' ' :: now.data ++
            '\n' :: separator60.data ++ '\n' :: dl.flatten ++ ['\n']⟩,
          .writeContext newStore] := by
  obtain ⟨nj, dl, _, _, hdl, hdlne, hev, _, _⟩ := update_main_applied_inv now stdin st h
  obtain ⟨restl, hheads⟩ := unified_diff_heads _ _ _ _ _ (hdl ▸ hdlne)
  refine ⟨dl, _, hdlne, ?_, ?_, hev⟩
  · rw [hdl, hheads]
    simp only [List.head?]
    decide
  · rw [hdl, hheads]
    simp only [List.tail_cons, List.head?]
    decide

/-- Witness for C9 at a concrete accepted update. -/
theorem C9_witness :
    (update_main "ts" "\x7b\"a\": 1\x7d" ⟨none, ""⟩).outcome = .applied ∧
    ∃ (dl : List Line) (newStore : String),
      dl ≠ [] ∧
      dl.head? = some ("--- claude_context.json.old".data) ∧
      dl.tail.head? = some ("+++ claude_context.json.new".data) ∧
      (update_main "ts" "\x7b\"a\": 1\x7d" ⟨none, ""⟩).events =
        [.mkdirLogParent,
          .appendLog ⟨'\n' :: separator60.data ++ '\n' :: '#' :: ' ' :: ("ts" : String).data ++
            '\n' :: separator60.data ++ '\n' :: dl.flatten ++ ['\n']⟩,
          .writeContext newStore] :=
  ⟨by rfl, C9_entry_structure "ts" "\x7b\"a\": 1\x7d" ⟨none, ""⟩ (by rfl)⟩

/-- C9 counterexample to the original claim: in the appended block the
`---` file header does NOT stand on its own line (it runs together with
the `+++` header, the `@@` hunk header and the first diff line), even
though the header text occurs in the entry. -/
theorem C9_cex :
    ((update_main "ts" "\x7b\"a\": 1\x7d" ⟨none, ""⟩).events.any (fun e =>
      match e with
      | .appendLog _ => true
      | _ => false)) = true ∧
    ((update_main "ts" "\x7b\"a\": 1\x7d" ⟨none, ""⟩).events.all (fun e =>
      match e with
      | .appendLog s =>
        ((pySplitS '\n' s).all (fun l => l ≠ "--- claude_context.json.old")) &&
          pyInS "--- claude_context.json.old+++ claude_context.json.new" s
      | _ => true)) = true := by
  constructor
  · decide
  · decide

/-- C10: a whitespace-only (or empty) input is rejected before JSON
parsing with the dedicated no-content diagnostic and exit 1, touching
nothing; and surrounding whitespace never changes the result, because
the input is stripped before validation. -/
theorem C10_whitespace_gate (now stdin : String) (st : FileState) :
    (stdin.data.all pyIsSpace = true →
      update_main now stdin st =
        ⟨.errorNoContent, 1, [], ["ERROR: No content provided on stdin"], st, []⟩) ∧
    (∀ pre post : List Char, pre.all pyIsSpace = true → post.all pyIsSpace = true →
      update_main now ⟨pre ++ stdin.data ++ post⟩ st = update_main now stdin st) := by
  constructor
  · intro hall
    have hs : pyStrip stdin.data = [] := pyStrip_all_space _ hall
    simp only [update_main]
    rw [hs, if_pos rfl]
  · intro pre post hpre hpost
    have hs : pyStrip (pre ++ stdin.data ++ post) = pyStrip stdin.data :=
      pyStrip_pad pre post stdin.data hpre hpost
    simp only [update_main]
    rw [hs]

/-- Witness for C10: whitespace-only stdin is rejected; whitespace
padding around a JSON document changes nothing. -/
theorem C10_witness :
    ((" \n\t" : String).data.all pyIsSpace = true ∧
      update_main "t" " \n\t" ⟨none, "log"⟩ =
        ⟨.errorNoContent, 1, [], ["ERROR: No content provided on stdin"],
          ⟨none, "log"⟩, []⟩) ∧
    (([' '].all pyIsSpace = true ∧ ['\n'].all pyIsSpace = true) ∧
      update_main "t" ⟨[' '] ++ ("\x7b\"a\": 1\x7d" : String).data ++ ['\n']⟩ ⟨none, ""⟩ =
        update_main "t" "\x7b\"a\": 1\x7d" ⟨none, ""⟩) :=
  ⟨⟨by decide, (C10_whitespace_gate "t" " \n\t" ⟨none, "log"⟩).1 (by decide)⟩,
   ⟨⟨by decide, by decide⟩,
    (C10_whitespace_gate "t" "\x7b\"a\": 1\x7d" ⟨none, ""⟩).2 [' '] ['\n']
      (by decide) (by decide)⟩⟩

theorem except_bind_ok {α β : Type} (a : α) (f : α → Except PyErr β) :
    ((Except.ok a : Except PyErr α) >>= f) = f a := rfl

theorem lspciFold_provenance : ∀ (lines : List String) (acc : List Gpu) (g : Gpu),
    g ∈ lspciFold acc lines → g ∈ acc ∨ g.source = some "lspci"
  | [], _, _, hg => Or.inl hg
  | line :: rest, acc, g, hg => by
    simp only [lspciFold] at hg
    split at hg
    · split at hg
      · split at hg
        · rcases lspciFold_provenance rest _ g hg with hin | hsrc
          · rcases List.mem_append.mp hin with h | h
            · exact Or.inl h
            · simp only [List.mem_singleton] at h
              subst h
              exact Or.inr rfl
          · exact Or.inr hsrc
        · exact lspciFold_provenance rest _ g hg
      · split at hg
        · rcases lspciFold_provenance rest _ g hg with hin | hsrc
          · rcases List.mem_append.mp hin with h | h
            · exact Or.inl h
            · simp only [List.mem_singleton] at h
              subst h
              exact Or.inr rfl
          · exact Or.inr hsrc
        · exact lspciFold_provenance rest _ g hg
    · exact lspciFold_provenance rest _ g hg

/-- C5 (amended): the lspci fallback suppresses an AMD candidate only in
one containment direction — when the candidate's extracted model string
occurs as a substring of an already-present entry whose vendor mentions
AMD — Intel candidates are never suppressed, and every retained fallback
entry carries the `lspci` provenance tag. -/
theorem C5_lspci_merge :
    (∀ (lines : List String) (acc : List Gpu) (g : Gpu),
      g ∈ lspciFold acc lines → g ∈ acc ∨ g.source = some "lspci") ∧
    (∀ (acc : List Gpu) (line : String) (rest : List String),
      (pyInS "VGA" line || pyInS "3D controller" line) = true →
      (pyInS "AMD" line || pyInS "ATI" line || pyInS "Radeon" line) = true →
      (acc.any (fun g => pyInS "AMD" g.vendor && pyInS (lspciModel line) g.model)) = true →
      lspciFold acc (line :: rest) = lspciFold acc rest) := by
  constructor
  · exact lspciFold_provenance
  · intro acc line rest h1 h2 h3
    simp only [lspciModel] at h3
    simp [lspciFold, h1, h2, h3]

/-- C5 counterexample to the bidirectional-containment reading: a second
fallback line whose model strictly CONTAINS an already-present AMD
entry's model is not suppressed, leaving two overlapping AMD records. -/
theorem C5_cex :
    lspciFold [] ["VGA ATI: RX [v]", "VGA: Radeon RX 580 [v]"] =
      [⟨"AMD", none, "RX", none, none, none, some "lspci"⟩,
       ⟨"AMD", none, "Radeon RX 580", none, none, none, some "lspci"⟩] ∧
    pyInS "RX" "Radeon RX 580" = true := by
  constructor
  · rfl
  · decide

/-- Witness for C5 at concrete inputs: a candidate whose model occurs
inside an existing AMD entry's model is dropped, and retained entries
are provenance-tagged. -/
theorem C5_witness :
    ((pyInS "VGA" "VGA: RX [v]" || pyInS "3D controller" "VGA: RX [v]") = true ∧
      (pyInS "AMD" "VGA: RX [v]" || pyInS "ATI" "VGA: RX [v]" ||
        pyInS "Radeon" "VGA: RX [v]") = false) ∧
    ((pyInS "VGA" "VGA ATI: RX [v]" || pyInS "3D controller" "VGA ATI: RX [v]") = true ∧
      (pyInS "AMD" "VGA ATI: RX [v]" || pyInS "ATI" "VGA ATI: RX [v]" ||
        pyInS "Radeon" "VGA ATI: RX [v]") = true ∧
      ([⟨"AMD", none, "Radeon RX 580", none, none, none, none⟩] : List Gpu).any
        (fun g => pyInS "AMD" g.vendor && pyInS (lspciModel "VGA ATI: RX [v]") g.model) = true ∧
      lspciFold [⟨"AMD", none, "Radeon RX 580", none, none, none, none⟩]
          ["VGA ATI: RX [v]"] =
        lspciFold [⟨"AMD", none, "Radeon RX 580", none, none, none, none⟩] []) :=
  ⟨⟨by decide, by decide⟩,
   ⟨by decide, by decide, by decide,
    C5_lspci_merge.2 [⟨"AMD", none, "Radeon RX 580", none, none, none, none⟩]
      "VGA ATI: RX [v]" [] (by decide) (by decide) (by decide)⟩⟩

/-- C6 (amended): the executor returns the trimmed stdout of any
completing probe regardless of its exit code, and absorbs exactly
`TimeoutExpired`, `SubprocessError` and `FileNotFoundError` into the
empty-string sentinel — any other exception (e.g. a `PermissionError`,
which is an `OSError` but none of the caught classes) propagates. -/
theorem C6_executor_contract (env : ScanEnv) (cmd : Cmd) :
    (∀ (out : String) (rc : Int), env.exec cmd = .completed out rc →
      run_command env cmd = .ok (pyStripS out)) ∧
    (∀ e : PyErr, env.exec cmd = .raised e →
      run_command env cmd =
        (if e = .timeoutExpired || e = .subprocessError || e = .fileNotFoundError
          then .ok "" else .error e)) := by
  constructor
  · intro out rc h
    simp [run_command, h]
  · intro e h
    simp only [run_command, h]

/-- C6 counterexample to total absorption: an `OSError` raised by the
probe propagates out of the executor instead of becoming `""`. -/
theorem C6_cex : run_command envOsError (.argv ["lscpu"]) = .error .osError := by rfl

/-- Witness for C6: a probe that exits with code 3 still has its trimmed
output returned. -/
theorem C6_witness :
    envNonzeroExit.exec (.argv ["x"]) = .completed "  out  " 3 ∧
    run_command envNonzeroExit (.argv ["x"]) = .ok "out" :=
  ⟨rfl, (C6_executor_contract envNonzeroExit (.argv ["x"])).1 "  out  " 3 rfl⟩

/-- `int()` succeeds on any string whose stripped form `isdigit()`
accepts (Python `int` itself ignores surrounding whitespace). -/
theorem pyIsDigit_int_strip (s : String) (h : pyIsDigit ⟨pyStrip s.data⟩ = true) :
    pyIntOfString s = .ok ((digitsToNat 0 (pyStrip s.data) : Nat) : Int) := by
  simp only [pyIsDigit, Bool.and_eq_true, Bool.not_eq_true'] at h
  obtain ⟨hne, hall⟩ := h
  have hallm : ∀ x ∈ pyStrip s.data, isDigitChar x = true := by
    rw [← List.all_eq_true]
    exact hall
  simp only [pyIntOfString]
  split
  · rename_i ds hds
    exact absurd (hallm '-' (by rw [hds]; exact List.mem_cons_self _ _)) (by decide)
  · rename_i ds hds
    exact absurd (hallm '+' (by rw [hds]; exact List.mem_cons_self _ _)) (by decide)
  · rw [if_pos (by
      simp only [Bool.and_eq_true, ne_eq, decide_eq_true_eq]
      refine ⟨?_, hall⟩
      intro hcon
      rw [hcon] at hne
      exact absurd hne (by simp))]
    rfl

/-- The CPU extractor never raises while probes complete: every
field-level parse failure is absorbed line by line. -/
theorem scan_cpu_total (env : ScanEnv)
    (h : ∀ cmd, ∃ (out : String) (rc : Int), env.exec cmd = .completed out rc) :
    ∃ c, scan_cpu env = .ok c := by
  have hr : ∀ cmd, ∃ s, run_command env cmd = .ok s := by
    intro cmd
    obtain ⟨out, rc, hc⟩ := h cmd
    exact ⟨pyStripS out, by simp [run_command, hc]⟩
  simp only [scan_cpu]
  by_cases h1 : get_platform env = "linux"
  · rw [if_pos h1]
    obtain ⟨s, hs⟩ := hr (.argv ["lscpu"])
    rw [hs, except_bind_ok]
    split
    · split
      · exact ⟨_, rfl⟩
      · exact ⟨_, rfl⟩
    · exact ⟨_, rfl⟩
  · rw [if_neg h1]
    by_cases h2 : get_platform env = "macos"
    · rw [if_pos h2]
      obtain ⟨s1, hs1⟩ := hr (.argv ["sysctl", "-n", "machdep.cpu.brand_string"])
      obtain ⟨s2, hs2⟩ := hr (.argv ["sysctl", "-n", "hw.physicalcpu"])
      obtain ⟨s3, hs3⟩ := hr (.argv ["sysctl", "-n", "hw.logicalcpu"])
      rw [hs1, except_bind_ok, hs2, except_bind_ok, hs3, except_bind_ok]
      split
      · exact ⟨_, rfl⟩
      · split
        · exact ⟨_, rfl⟩
        · exact ⟨_, rfl⟩
    · rw [if_neg h2]
      by_cases h3 : get_platform env = "windows"
      · rw [if_pos h3]
        obtain ⟨s, hs⟩ := hr
          (.shell "wmic cpu get name,numberofcores,numberoflogicalprocessors /format:csv")
        rw [hs, except_bind_ok]
        split
        · exact ⟨_, rfl⟩
        · split
          · split
            · rename_i hd2
              rw [pyIsDigit_int_strip _ hd2, except_bind_ok]
              split
              · rename_i hd3
                rw [pyIsDigit_int_strip _ hd3, except_bind_ok]
                exact ⟨_, rfl⟩
              · rw [except_bind_ok]
                exact ⟨_, rfl⟩
            · rw [except_bind_ok]
              split
              · rename_i hd3
                rw [pyIsDigit_int_strip _ hd3, except_bind_ok]
                exact ⟨_, rfl⟩
              · rw [except_bind_ok]
                exact ⟨_, rfl⟩
          · exact ⟨_, rfl⟩
      · rw [if_neg h3]
        exact ⟨_, rfl⟩

/-- C7 (amended): the CPU extractor absorbs field-level parse failures
line by line and never raises while probes complete, but the memory
extractor does not share this property — a malformed `MemTotal` value
raises `ValueError` out of the extractor instead of degrading to
`total_gb = 0`. -/
theorem C7_field_degradation :
    (∀ env : ScanEnv,
      (∀ cmd, ∃ (out : String) (rc : Int), env.exec cmd = .completed out rc) →
      ∃ c, scan_cpu env = .ok c) ∧
    scan_memory envBadMem = .error .valueError :=
  ⟨fun env h => scan_cpu_total env h, by rfl⟩

/-- C7 counterexample to the original claim: the malformed `MemTotal`
line aborts the memory extractor (and with it the whole scan) with
`ValueError` instead of producing `{"total_gb": 0}`. -/
theorem C7_cex :
    scan_memory envBadMem = .error .valueError ∧
    scan_all envBadMem = .error .valueError := by
  constructor
  · rfl
  · rfl

/-- Witness for C7: a malformed `CPU(s):` value is absorbed and the CPU
record is still produced. -/
theorem C7_witness :
    (∀ cmd, ∃ (out : String) (rc : Int), envBadCpuLine.exec cmd = .completed out rc) ∧
    ∃ c, scan_cpu envBadCpuLine = .ok c :=
  ⟨fun cmd => by
      by_cases hc : cmd = .argv ["lscpu"]
      · exact ⟨"Model name: X\nCPU(s): banana", 0, by simp [envBadCpuLine, hc]⟩
      · exact ⟨"", 0, by simp [envBadCpuLine, hc]⟩,
    C7_field_degradation.1 envBadCpuLine (fun cmd => by
      by_cases hc : cmd = .argv ["lscpu"]
      · exact ⟨"Model name: X\nCPU(s): banana", 0, by simp [envBadCpuLine, hc]⟩
      · exact ⟨"", 0, by simp [envBadCpuLine, hc]⟩)⟩

theorem scan_cpu_empty (env : ScanEnv)
    (h : ∀ cmd, env.exec cmd = .completed "" 0) :
    scan_cpu env = .ok ⟨"Unknown", 0, 0⟩ := by
  have hr : ∀ cmd, run_command env cmd = .ok "" := by
    intro cmd
    simp [run_command, h cmd]
    rfl
  by_cases h1 : get_platform env = "linux"
  · simp [scan_cpu, hr, h1, except_bind_ok]
    rfl
  · by_cases h2 : get_platform env = "macos"
    · simp [scan_cpu, hr, h1, h2, except_bind_ok]
    · by_cases h3 : get_platform env = "windows"
      · simp [scan_cpu, hr, h1, h2, h3, except_bind_ok]
        rfl
      · simp [scan_cpu, hr, h1, h2, h3]

theorem scan_memory_empty (env : ScanEnv)
    (h : ∀ cmd, env.exec cmd = .completed "" 0) :
    scan_memory env = .ok ⟨0⟩ := by
  have hr : ∀ cmd, run_command env cmd = .ok "" := by
    intro cmd
    simp [run_command, h cmd]
    rfl
  by_cases h1 : get_platform env = "linux"
  · simp [scan_memory, hr, h1, except_bind_ok]
    rfl
  · by_cases h2 : get_platform env = "macos"
    · simp [scan_memory, hr, h1, h2, except_bind_ok]
    · by_cases h3 : get_platform env = "windows"
      · simp [scan_memory, hr, h1, h2, h3, except_bind_ok]
        rfl
      · simp [scan_memory, hr, h1, h2, h3]

theorem scan_gpus_empty (env : ScanEnv)
    (h : ∀ cmd, env.exec cmd = .completed "" 0)
    (hw : ∀ t, env.which t = false) :
    scan_gpus env = .ok [] := by
  have hr : ∀ cmd, run_command env cmd = .ok "" := by
    intro cmd
    simp [run_command, h cmd]
    rfl
  by_cases h1 : get_platform env = "linux"
  · simp [scan_gpus, hr, hw, h1, except_bind_ok]
    rfl
  · by_cases h2 : get_platform env = "macos"
    · simp [scan_gpus, hr, hw, h1, h2, except_bind_ok]
    · by_cases h3 : get_platform env = "windows"
      · simp [scan_gpus, hr, hw, h1, h2, h3, except_bind_ok]
        rfl
      · simp [scan_gpus, hr, hw, h1, h2, h3]
        rfl

theorem scan_storage_empty (env : ScanEnv)
    (h : ∀ cmd, env.exec cmd = .completed "" 0) :
    scan_storage env = .ok [] := by
  have hr : ∀ cmd, run_command env cmd = .ok "" := by
    intro cmd
    simp [run_command, h cmd]
    rfl
  by_cases h1 : get_platform env = "linux"
  · simp [scan_storage, hr, h1, except_bind_ok]
    rfl
  · by_cases h2 : get_platform env = "macos"
    · simp [scan_storage, hr, h1, h2, except_bind_ok]
      rfl
    · by_cases h3 : get_platform env = "windows"
      · simp [scan_storage, hr, h1, h2, h3, except_bind_ok]
        rfl
      · simp [scan_storage, hr, h1, h2, h3]

theorem scan_network_empty (env : ScanEnv)
    (h : ∀ cmd, env.exec cmd = .completed "" 0) :
    scan_network env = .ok ⟨[]⟩ := by
  have hr : ∀ cmd, run_command env cmd = .ok "" := by
    intro cmd
    simp [run_command, h cmd]
    rfl
  by_cases h1 : get_platform env = "linux"
  · simp [scan_network, hr, h1, except_bind_ok]
    rfl
  · by_cases h2 : get_platform env = "macos"
    · simp [scan_network, hr, h1, h2, except_bind_ok]
      rfl
    · by_cases h3 : get_platform env = "windows"
      · simp [scan_network, hr, h1, h2, h3, except_bind_ok]
        decide
      · simp [scan_network, hr, h1, h2, h3]

/-- C2 (amended): with every probe tool absent — every command
completing with empty output, no tool on `PATH`, no `~/.ssh` — the scan
never aborts and produces the complete eight-field snapshot with every
category at its neutral default.  (The aggregator itself has no
exception handling: see the counterexample for a raising extractor.) -/
theorem C2_degrade_when_probes_complete (env : ScanEnv)
    (h : ∀ cmd, env.exec cmd = .completed "" 0)
    (hw : ∀ t, env.which t = false)
    (hssh : env.sshDirExists = false) :
    scan_all env = .ok ⟨get_platform env, env.hostname,
      ⟨"Unknown", 0, 0⟩, ⟨0⟩, [], [], ⟨[]⟩, []⟩ := by
  have hssk : scan_ssh_keys env = [] := by
    simp [scan_ssh_keys, hssh]
  simp only [scan_all, scan_cpu_empty env h, except_bind_ok,
    scan_memory_empty env h, scan_gpus_empty env h hw,
    scan_storage_empty env h, scan_network_empty env h, hssk]

/-- C2 counterexample to the original claim: one raising extractor (the
memory extractor on a malformed `MemTotal` line) aborts the whole scan —
`scan_all` has no per-category exception handling, so no snapshot is
produced at all. -/
theorem C2_cex : scan_all envBadMem = .error .valueError := by rfl

/-- Witness for C2 on a concrete all-probes-absent linux environment. -/
theorem C2_witness :
    (∀ cmd, (⟨"Linux", "host", fun _ => .completed "" 0,
        fun _ => false, false, []⟩ : ScanEnv).exec cmd = .completed "" 0) ∧
    (∀ t, (⟨"Linux", "host", fun _ => .completed "" 0,
        fun _ => false, false, []⟩ : ScanEnv).which t = false) ∧
    scan_all (⟨"Linux", "host", fun _ => .completed "" 0,
        fun _ => false, false, []⟩ : ScanEnv) =
      .ok ⟨"linux", "host", ⟨"Unknown", 0, 0⟩, ⟨0⟩, [], [], ⟨[]⟩, []⟩ :=
  ⟨fun _ => rfl, fun _ => rfl,
    C2_degrade_when_probes_complete _ (fun _ => rfl) (fun _ => rfl) rfl⟩
